import Mathlib

/-!
# Verification of the messenger-server messaging core

A shallow embedding, in Lean 4, of the messaging engine of the
`messenger-server` repository: the idempotent message write path
(`app/services/message_service.py`), the per-conversation sequence
allocator and direct-conversation creation
(`app/services/conversation_service.py`), the realtime outbox and its
dispatcher (`app/realtime/dispatcher.py`), the WebSocket connection
manager (`app/realtime/connection_manager.py`), the command protocol
codec (`app/realtime/protocol.py`), and the incremental sync view
(`app/api/v1/sync.py`).

Identifiers (user ids, conversation ids, message ids) are opaque strings,
exactly as in the source.  Timestamps are abstract instants modelled as
natural numbers (milliseconds); the wall clock (`datetime.now(UTC)`) and
the uuid source (`uuid.uuid4()`) are passed in as explicit parameters,
which is the standard functional reading of those effectful calls.
Database transactions become explicit state passing: a function that
commits returns the new store, a function that raises (`APIError`) or
rolls back returns an error and the caller keeps the old store.
-/

namespace Messenger

/-! ## Data model (`app/models/*.py`) -/

/-- A row of the `messages` table (`app/models/message.py`).  Unique
constraints `uq_sender_client_message (sender_id, client_message_id)` and
`uq_conversation_seq (conversation_id, seq)` are enforced at commit time
by `send_message` below. -/
structure Message where
  id : String
  conversation_id : String
  sender_id : String
  client_message_id : String
  seq : Nat
  content : String
  created_at : Nat
deriving Repr, DecidableEq

/-- A row of the `conversations` table (`app/models/conversation.py`). -/
structure Conversation where
  id : String
  ctype : String
  created_at : Nat
  updated_at : Nat
  last_message_preview : Option String
  last_message_at : Option Nat
deriving Repr, DecidableEq

/-- A row of the `realtime_outbox_events` table
(`app/models/realtime_outbox_event.py`). -/
structure RealtimeOutboxEvent where
  id : Nat
  event_id : String
  event_type : String
  conversation_id : String
  payload_json : String
  created_at : Nat
  published_at : Option Nat
  attempts : Nat
  next_attempt_at : Nat
  last_error : Option String
deriving Repr, DecidableEq

/-- The durable store: one field per table touched by the embedded
services.  `members` holds `(conversation_id, user_id)` rows of
`conversation_members`; `counters` holds `(conversation_id, next_seq)`
rows of `conversation_counters`; `users` holds the ids of the `users`
table. -/
structure Store where
  users : List String
  conversations : List Conversation
  members : List (String × String)
  counters : List (String × Nat)
  messages : List Message
  outbox : List RealtimeOutboxEvent
deriving Repr, DecidableEq

/-- `app/core/errors.py` `APIError(status_code, code, message)`; the
`integrity` variant stands for an uncaught `sqlalchemy IntegrityError`
surfaced out of `send_message`'s recovery path. -/
inductive SendError where
  | apiError (status_code : Nat) (code : String)
  | integrity
deriving Repr, DecidableEq

/-- The dict built by `_serialize_message` in
`app/services/message_service.py`. -/
structure SerializedMessage where
  id : String
  conversation_id : String
  sender_id : String
  client_message_id : String
  seq : Nat
  content : String
  created_at : Nat
deriving Repr, DecidableEq

/-- `_serialize_message(message)`: copies the persisted columns into a
plain dict. -/
def serializeMessage (m : Message) : SerializedMessage :=
  { id := m.id
    conversation_id := m.conversation_id
    sender_id := m.sender_id
    client_message_id := m.client_message_id
    seq := m.seq
    content := m.content
    created_at := m.created_at }

/-- `PREVIEW_MAX_LENGTH = 280` (`app/services/message_service.py`). -/
def PREVIEW_MAX_LENGTH : Nat := 280

/-- The first `messages` row matching
`Message.sender_id == sender_id, Message.client_message_id ==
client_message_id` (the `db.scalar(select(Message).where(...))` lookup at
the top of `send_message`). -/
def findByClientKey (msgs : List Message) (sender_id client_message_id : String) :
    Option Message :=
  msgs.find? fun m =>
    m.sender_id = sender_id ∧ m.client_message_id = client_message_id

/-- `db.get(Conversation, conversation_id)`. -/
def getConversation (s : Store) (conversation_id : String) : Option Conversation :=
  s.conversations.find? fun c => c.id = conversation_id

/-- `db.get(ConversationCounter, conversation_id)`, giving the stored
`next_seq`. -/
def getCounter (s : Store) (conversation_id : String) : Option Nat :=
  (s.counters.find? fun p => p.1 = conversation_id).map Prod.snd

/-- Write `next_seq` for a conversation, inserting the counter row if it
is absent (`db.add(counter)` / in-place `counter.next_seq += 1`). -/
def setCounter (s : Store) (conversation_id : String) (next_seq : Nat) :
    List (String × Nat) :=
  if (s.counters.find? fun p => p.1 = conversation_id).isSome then
    s.counters.map fun p => if p.1 = conversation_id then (p.1, next_seq) else p
  else
    s.counters ++ [(conversation_id, next_seq)]

/-- The in-place update of the conversation row performed by
`send_message` before committing: `updated_at = last_message_at = now`,
`last_message_preview = content[:PREVIEW_MAX_LENGTH]` (a Python slice by
code points, `String.take` in Lean). -/
def touchConversation (convs : List Conversation) (conversation_id : String)
    (content : String) (now : Nat) : List Conversation :=
  convs.map fun c =>
    if c.id = conversation_id then
      { c with
        updated_at := now
        last_message_at := some now
        last_message_preview := some (content.take PREVIEW_MAX_LENGTH) }
    else c

/-- `send_message` (`app/services/message_service.py`).  `now` stands for
`datetime.now(UTC)` and `newId` for the uuid4 default of `Message.id`.

Path by path:
* an existing `(sender_id, client_message_id)` row in another
  conversation raises `APIError(409, "client_message_conflict")`;
* an existing row in the same conversation is returned with
  `created=False` and nothing is written;
* a missing conversation raises `APIError(404, "conversation_not_found")`;
* otherwise the counter row is loaded (or created with `next_seq=1`),
  `seq = next_seq` is allocated, the counter is incremented, the message
  row is added, the conversation row is touched, and the transaction
  commits.  The commit enforces the two unique constraints of the
  `messages` table; on a violation the code rolls back and re-queries
  `(sender_id, client_message_id)` — in this sequential model that
  re-query repeats the first lookup, which returned `none` on this path,
  so the recovery misses and the `IntegrityError` is re-raised.

Note: `send_message` never calls
`realtime_service.enqueue_message_created` or
`enqueue_conversation_updated`; no `RealtimeOutboxEvent` row is written
on any path (see `C1_send_message_writes_no_outbox_rows`). -/
def send_message (s : Store) (conversation_id sender_id client_message_id content : String)
    (now : Nat) (newId : String) :
    Except SendError (Store × SerializedMessage × Bool) :=
  match findByClientKey s.messages sender_id client_message_id with
  | some existing =>
    if existing.conversation_id ≠ conversation_id then
      .error (.apiError 409 "client_message_conflict")
    else
      .ok (s, serializeMessage existing, false)
  | none =>
    match getConversation s conversation_id with
    | none => .error (.apiError 404 "conversation_not_found")
    | some _ =>
      let seq := (getCounter s conversation_id).getD 1
      let counters := setCounter s conversation_id (seq + 1)
      let message : Message :=
        { id := newId
          conversation_id := conversation_id
          sender_id := sender_id
          client_message_id := client_message_id
          seq := seq
          content := content
          created_at := now }
      -- commit: the unique constraint `uq_conversation_seq` can only be
      -- violated by a pre-existing row with the same (conversation, seq);
      -- `uq_sender_client_message` cannot fire here because the lookup
      -- above returned no row for this key.
      if s.messages.any fun m => m.conversation_id = conversation_id ∧ m.seq = seq then
        .error .integrity
      else
        .ok
          ({ s with
              counters := counters
              messages := s.messages ++ [message]
              conversations := touchConversation s.conversations conversation_id content now },
            serializeMessage message, true)

/-! ## Direct conversation creation
(`app/services/conversation_service.py`, `get_or_create_direct_conversation`) -/

/-- The `candidate_ids_subquery` / existing-conversation lookup: a
`direct` conversation whose member rows restricted to `{user_id,
other_user_id}` number exactly two and mention two distinct users. -/
def findDirectConversation (s : Store) (user_id other_user_id : String) :
    Option Conversation :=
  s.conversations.find? fun c =>
    c.ctype = "direct" ∧
    (s.members.filter fun p =>
        p.1 = c.id ∧ (p.2 = user_id ∨ p.2 = other_user_id)).length = 2 ∧
    ((s.members.filter fun p =>
        p.1 = c.id ∧ (p.2 = user_id ∨ p.2 = other_user_id)).map Prod.snd).dedup.length = 2

/-- The `Conversation(type="direct")` row inserted on the create path,
with timestamp defaults at `now` and the uuid4 id `newCid`. -/
def newDirectConversation (newCid : String) (now : Nat) : Conversation :=
  { id := newCid
    ctype := "direct"
    created_at := now
    updated_at := now
    last_message_preview := none
    last_message_at := none }

/-- `get_or_create_direct_conversation`: rejects self-conversations
(`invalid_target`, 400) and unknown targets (`user_not_found`, 404);
returns an existing direct conversation for the pair unchanged; otherwise
inserts the `Conversation` row (type `direct`), both
`ConversationMember` rows, and a `ConversationCounter` row with
`next_seq=1`, and commits.  `newCid` stands for the uuid4 default of
`Conversation.id`; the commit-time primary-key check on `conversations`
is explicit (a colliding id would raise `IntegrityError`). -/
def get_or_create_direct_conversation (s : Store) (user_id other_user_id : String)
    (now : Nat) (newCid : String) : Except SendError (Store × String) :=
  if user_id = other_user_id then .error (.apiError 400 "invalid_target")
  else if other_user_id ∉ s.users then .error (.apiError 404 "user_not_found")
  else
    match findDirectConversation s user_id other_user_id with
    | some existing => .ok (s, existing.id)
    | none =>
      if s.conversations.any fun c => c.id = newCid then .error .integrity
      else
        .ok
          ({ s with
              conversations := s.conversations ++ [newDirectConversation newCid now]
              members := s.members ++ [(newCid, user_id), (newCid, other_user_id)]
              counters := s.counters ++ [(newCid, 1)] },
            newCid)

/-! ## Write-path operation sequences and the sequence invariant -/

/-- One store-mutating operation of the write path: an HTTP
`POST /conversations/{id}/messages` (via `send_message`) or a
`POST /conversations/direct` (via `get_or_create_direct_conversation`).
The `now` / fresh-id arguments carry the effectful inputs of each call. -/
inductive StoreOp where
  | send (conversation_id sender_id client_message_id content : String)
      (now : Nat) (newId : String)
  | createDirect (user_id other_user_id : String) (now : Nat) (newCid : String)

/-- Apply one operation; an operation that raises rolls its transaction
back, so the store is unchanged. -/
def applyOp (s : Store) : StoreOp → Store
  | .send cid sid cmid content now newId =>
    match send_message s cid sid cmid content now newId with
    | .ok (s', _, _) => s'
    | .error _ => s
  | .createDirect u1 u2 now newCid =>
    match get_or_create_direct_conversation s u1 u2 now newCid with
    | .ok (s', _) => s'
    | .error _ => s

/-- Apply a sequence of write-path operations in order. -/
def applyOps (s : Store) (ops : List StoreOp) : Store := ops.foldl applyOp s

/-- The persisted `seq` values of a conversation, in table order. -/
def convSeqs (s : Store) (v : String) : List Nat :=
  (s.messages.filter fun m => m.conversation_id = v).map Message.seq

/-- The sequence-allocator invariant of the store:
* per conversation, the persisted `seq` values are a permutation of
  `1, 2, …, N` (gap-free, duplicate-free);
* a present counter row holds `next_seq = N + 1`; a conversation with no
  counter row has no messages;
* foreign keys: every message and every counter row references an
  existing conversation (used to know fresh conversations start empty). -/
def SeqWF (s : Store) : Prop :=
  (∀ v : String, (convSeqs s v).Perm (List.range' 1 (convSeqs s v).length)) ∧
  (∀ v : String,
    match getCounter s v with
    | some n => n = (convSeqs s v).length + 1
    | none => convSeqs s v = []) ∧
  (∀ m ∈ s.messages, ∃ c ∈ s.conversations, c.id = m.conversation_id) ∧
  (∀ p ∈ s.counters, ∃ c ∈ s.conversations, c.id = p.1)

/-! ## Outbox dispatcher (`app/realtime/dispatcher.py`) -/

/-- The dispatcher's visibility predicate:
`published_at IS NULL AND next_attempt_at <= now`. -/
def eventDue (now : Nat) (e : RealtimeOutboxEvent) : Bool :=
  e.published_at = none ∧ e.next_attempt_at ≤ now

/-- `ORDER BY id ASC`. -/
def RealtimeOutboxEvent.le (a b : RealtimeOutboxEvent) : Prop := a.id ≤ b.id

instance : DecidableRel RealtimeOutboxEvent.le := fun a b =>
  inferInstanceAs (Decidable (a.id ≤ b.id))

instance : IsTotal RealtimeOutboxEvent RealtimeOutboxEvent.le :=
  ⟨fun a b => Nat.le_total a.id b.id⟩

instance : IsTrans RealtimeOutboxEvent RealtimeOutboxEvent.le :=
  ⟨fun _ _ _ h h' => Nat.le_trans h h'⟩

/-- The batch selected by `process_once`:
`SELECT … WHERE published_at IS NULL AND next_attempt_at <= now
ORDER BY id ASC LIMIT batch_size`. -/
def selectBatch (now batch_size : Nat) (events : List RealtimeOutboxEvent) :
    List RealtimeOutboxEvent :=
  ((events.filter (eventDue now)).insertionSort RealtimeOutboxEvent.le).take batch_size

/-- The per-event body of the `process_once` loop.  `pub e = none` models
a successful `await self._publisher.publish(event)`; `pub e = some err`
models a raised exception with text `err`.  The `except` branch applies
the backoff: `attempts += 1`, `delay = min(30.0, 0.5 * 2**(attempts-1))`
seconds — `min 30000 (500 * 2^(attempts-1))` in integer milliseconds —
`next_attempt_at = now + delay`, `last_error = str(exc)[:1000]`. -/
def processEvent (pub : RealtimeOutboxEvent → Option String) (now : Nat)
    (e : RealtimeOutboxEvent) : RealtimeOutboxEvent :=
  match pub e with
  | none =>
    { e with published_at := some now, last_error := none }
  | some err =>
    let attempts := e.attempts + 1
    let delay := min 30000 (500 * 2 ^ (attempts - 1))
    { e with
        attempts := attempts
        next_attempt_at := now + delay
        last_error := some (err.take 1000) }

/-- `RealtimeDispatcher.process_once`: select the due batch; if it is
empty return 0; otherwise process every selected event (failures are
caught per event and never abort the loop), commit the updated rows, and
return the processed count. -/
def process_once (pub : RealtimeOutboxEvent → Option String)
    (now batch_size : Nat) (events : List RealtimeOutboxEvent) :
    List RealtimeOutboxEvent × Nat :=
  let sel := selectBatch now batch_size events
  if sel.isEmpty then (events, 0)
  else
    (events.map fun e =>
        if sel.any fun x => x.id = e.id then processEvent pub now e else e,
      sel.length)

/-! ## Command protocol codec (`app/realtime/protocol.py`)

`json.loads` and UTF-8 encoding belong to the Python standard library,
not to this repository; they are abstracted as inputs: `rawBytes` is
`len(raw_text.encode("utf-8"))` and `decoded` is the result of
`json.loads(raw_text)` (`none` for a `JSONDecodeError`). -/

/-- A decoded JSON value; objects keep their fields as an association
list (Python dicts have unique keys, `json.loads` keeps the last
duplicate — lookups below take the first match, so theorems about
objects with duplicate keys are stated with `Nodup` keys where it
matters). -/
inductive Json where
  | null
  | bool (b : Bool)
  | num (n : Int)
  | str (s : String)
  | arr (elems : List Json)
  | obj (fields : List (String × Json))

/-- `decoded.get(key)`. -/
def jsonGet (fields : List (String × Json)) (key : String) : Option Json :=
  (fields.find? fun p => p.1 = key).map Prod.snd

/-- `ProtocolError{code, message}`. -/
structure ProtocolError where
  code : String
  message : String
deriving Repr, DecidableEq

/-- The three pydantic command models of `protocol.py`. -/
inductive Command where
  | subscribe (conversation_ids : List String)
  | unsubscribe (conversation_ids : List String)
  | ping (ts : Option Int)
deriving Repr, DecidableEq

/-- pydantic validation of `conversation_ids: list[str]`. -/
def asStringList : Json → Option (List String)
  | .arr elems =>
    elems.foldr
      (fun j acc =>
        match j, acc with
        | .str s, some rest => some (s :: rest)
        | _, _ => none)
      (some [])
  | _ => none

/-- pydantic's check of `op: Literal[opName]`: the value must be exactly
that string. -/
def isOpLiteral (j : Option Json) (opName : String) : Bool :=
  match j with
  | some (.str s) => s = opName
  | _ => false

/-- `SubscribeCommand` / `UnsubscribeCommand` validation
(`model_config = ConfigDict(extra="forbid")`, `op: Literal[...]`,
`conversation_ids: list[str]`). -/
def validateIdsCommand (opName : String) (mk : List String → Command)
    (fields : List (String × Json)) : Except ProtocolError Command :=
  if ¬ (fields.all fun p => p.1 = "op" ∨ p.1 = "conversation_ids") then
    .error ⟨"INVALID_COMMAND", "Extra inputs are not permitted"⟩
  else if isOpLiteral (jsonGet fields "op") opName then
    match jsonGet fields "conversation_ids" with
    | none => .error ⟨"INVALID_COMMAND", "Field required"⟩
    | some j =>
      match asStringList j with
      | none => .error ⟨"INVALID_COMMAND", "Input should be a valid list"⟩
      | some ids => .ok (mk ids)
  else .error ⟨"INVALID_COMMAND", "Input should be " ++ opName⟩

/-- `PingCommand` validation (`op: Literal["ping"]`,
`ts: int | None = None`, extras forbidden). -/
def validatePing (fields : List (String × Json)) : Except ProtocolError Command :=
  if ¬ (fields.all fun p => p.1 = "op" ∨ p.1 = "ts") then
    .error ⟨"INVALID_COMMAND", "Extra inputs are not permitted"⟩
  else if isOpLiteral (jsonGet fields "op") "ping" then
    match jsonGet fields "ts" with
    | none => .ok (.ping none)
    | some .null => .ok (.ping none)
    | some (.num n) => .ok (.ping (some n))
    | some _ => .error ⟨"INVALID_COMMAND", "Input should be a valid integer"⟩
  else .error ⟨"INVALID_COMMAND", "Input should be ping"⟩

/-- `parse_command(raw_text, max_bytes=...)`: reject oversized frames,
non-JSON payloads, non-object payloads, and unsupported ops; then run the
matching pydantic model, converting its `ValidationError` into a
`ProtocolError`. -/
def parse_command (rawBytes : Nat) (decoded : Option Json) (max_bytes : Nat) :
    Except ProtocolError Command :=
  if rawBytes > max_bytes then
    .error ⟨"INVALID_COMMAND", "Frame is too large"⟩
  else
    match decoded with
    | none => .error ⟨"INVALID_COMMAND", "Invalid JSON payload"⟩
    | some (.obj fields) =>
      -- `op = decoded.get("op")` followed by the if/elif chain; `op ==
      -- "subscribe"` is only true when the value is that string.
      match jsonGet fields "op" with
      | some (.str op) =>
        if op = "subscribe" then validateIdsCommand "subscribe" .subscribe fields
        else if op = "unsubscribe" then validateIdsCommand "unsubscribe" .unsubscribe fields
        else if op = "ping" then validatePing fields
        else .error ⟨"INVALID_COMMAND", "Unsupported command"⟩
      | _ => .error ⟨"INVALID_COMMAND", "Unsupported command"⟩
    | some _ => .error ⟨"INVALID_COMMAND", "Command payload must be an object"⟩

/-! ## Connection manager (`app/realtime/connection_manager.py`)

Connection ids, user ids and conversation ids are strings; outgoing
frames are opaque payloads (modelled as strings).  All operations of the
manager run under its single `asyncio.Lock`, so the sequential functional
semantics below is exact.  `str(uuid.uuid4())` freshness is a hypothesis
of the reachability relation. -/

/-- `ConnectionContext` (websocket and writer task omitted: they carry no
index state). -/
structure ConnCtx where
  user_id : String
  queue : List String
  subscriptions : Finset String

/-- A Python `dict[str, set[str]]` as used for the two reverse indexes:
the key set plus the stored values.  `val k` is meaningful only for
`k ∈ dom` (the manager keeps no empty sets: emptied keys are popped). -/
structure SetDict where
  dom : Finset String
  val : String → Finset String

/-- `{}` -/
def SetDict.empty : SetDict := ⟨∅, fun _ => ∅⟩

/-- `d.get(k)`, reading a missing key as the empty set. -/
def SetDict.get (d : SetDict) (k : String) : Finset String :=
  if k ∈ d.dom then d.val k else ∅

/-- `d.setdefault(k, set()).add(c)`. -/
def SetDict.setdefaultAdd (d : SetDict) (k c : String) : SetDict :=
  ⟨insert k d.dom, fun x => if x = k then insert c (d.get k) else d.val x⟩

/-- The idiom `s = d.get(k); if s is not None: s.discard(c); if not s:
d.pop(k, None)` used by `unregister`, `unsubscribe` and the fanout
cleanup. -/
def SetDict.discardPop (d : SetDict) (k c : String) : SetDict :=
  if k ∈ d.dom then
    if (d.val k).erase c = ∅ then
      ⟨d.dom.erase k, fun x => if x = k then ∅ else d.val x⟩
    else
      ⟨d.dom, fun x => if x = k then (d.val k).erase c else d.val x⟩
  else d

/-- The manager's mutable state: `_max_subscriptions_per_connection`,
`_connections`, `_connections_by_user`, `_connections_by_conversation`. -/
structure CMState where
  maxSubs : Nat
  conns : String → Option ConnCtx
  byUser : SetDict
  byConv : SetDict

/-- `asyncio.Queue(maxsize=200)` created by `register`. -/
def queueCapacity : Nat := 200

/-- A freshly constructed `ConnectionManager`. -/
def initState (m : Nat) : CMState :=
  ⟨m, fun _ => none, .empty, .empty⟩

/-- `register(websocket, user_id=uid)` with the fresh uuid `cid`:
stores a context with an empty queue and no subscriptions and indexes it
under `uid`. -/
def register (s : CMState) (cid uid : String) : CMState :=
  { s with
    conns := fun c => if c = cid then some ⟨uid, [], ∅⟩ else s.conns c
    byUser := s.byUser.setdefaultAdd uid cid }

/-- `unregister(connection_id, close_socket=..., close_code=...)`:
pops the context (no-op when absent), removes the connection from the
user index and from the conversation index for every subscription (keys
left empty are popped), and closes the socket with the given code when
asked to.  The returned `Option Nat` is the close code sent on the
socket, if any. -/
def unregisterM (s : CMState) (cid : String) (closeSocket : Bool) (closeCode : Nat) :
    CMState × Option Nat :=
  match s.conns cid with
  | none => (s, none)
  | some ctx =>
    ({ s with
        conns := fun c => if c = cid then none else s.conns c
        byUser := s.byUser.discardPop ctx.user_id cid
        byConv := (ctx.subscriptions.sort (· ≤ ·)).foldl (fun d v => d.discardPop v cid) s.byConv },
      if closeSocket then some closeCode else none)

/-- Helper for `list(dict.fromkeys(·))`: walk the list keeping the first
occurrence of each key, carrying the keys already seen. -/
def pyDedupAux (seen : List String) : List String → List String
  | [] => []
  | a :: rest =>
    if a ∈ seen then pyDedupAux seen rest
    else a :: pyDedupAux (a :: seen) rest

/-- `list(dict.fromkeys(conversation_ids))`: first-occurrence
deduplication. -/
def pyDedup (ids : List String) : List String := pyDedupAux [] ids

/-- One iteration of the `subscribe` loop: add the conversation to the
context's subscription set and the connection to the reverse index. -/
def addSubscription (cid v : String) (s : CMState) : CMState :=
  match s.conns cid with
  | none => s
  | some ctx =>
    { s with
      conns := fun c =>
        if c = cid then some { ctx with subscriptions := insert v ctx.subscriptions }
        else s.conns c
      byConv := s.byConv.setdefaultAdd v cid }

/-- `subscribe(connection_id, conversation_ids)`: deduplicate; empty
request and unknown connection return silently; raise `ValueError`
(`.error ()`, surfaced by the WS endpoint as an `INVALID_COMMAND` error
frame) when `len(subscriptions ∪ normalized) >
max_subscriptions_per_connection` — the raise happens before any
mutation, so a rejected call leaves the state untouched; otherwise add
every normalized id to both indexes. -/
def subscribe (s : CMState) (cid : String) (ids : List String) :
    Except Unit CMState :=
  let normalized := pyDedup ids
  if normalized.isEmpty then .ok s
  else
    match s.conns cid with
    | none => .ok s
    | some ctx =>
      if s.maxSubs < (ctx.subscriptions ∪ normalized.toFinset).card then .error ()
      else .ok (normalized.foldl (fun st v => addSubscription cid v st) s)

/-- One iteration of the `unsubscribe` loop. -/
def removeSubscription (cid v : String) (s : CMState) : CMState :=
  match s.conns cid with
  | none => s
  | some ctx =>
    { s with
      conns := fun c =>
        if c = cid then some { ctx with subscriptions := ctx.subscriptions.erase v }
        else s.conns c
      byConv := s.byConv.discardPop v cid }

/-- `unsubscribe(connection_id, conversation_ids)`: deduplicate; discard
each id from the context and the reverse index, popping emptied keys;
unknown ids are silently ignored. -/
def unsubscribeM (s : CMState) (cid : String) (ids : List String) : CMState :=
  let normalized := pyDedup ids
  if normalized.isEmpty then s
  else
    match s.conns cid with
    | none => s
    | some _ => normalized.foldl (fun st v => removeSubscription cid v st) s

/-- `send(connection_id, payload)`: unknown connection → `False`;
otherwise `put_nowait` onto the bounded queue and `True`, or on
`QueueFull` unregister with close code 1013 and `False`.  Returns
`(result, new state, close code sent)`. -/
def send (s : CMState) (cid : String) (payload : String) :
    Bool × CMState × Option Nat :=
  match s.conns cid with
  | none => (false, s, none)
  | some ctx =>
    if ctx.queue.length < queueCapacity then
      (true,
        { s with
            conns := fun c =>
              if c = cid then some { ctx with queue := ctx.queue ++ [payload] }
              else s.conns c },
        none)
    else
      let r := unregisterM s cid true 1013
      (false, r.1, r.2)

/-- The four index-mutating operations of the manager. -/
inductive CMOp where
  | register (cid uid : String)
  | unregister (cid : String) (closeSocket : Bool) (closeCode : Nat)
  | subscribe (cid : String) (ids : List String)
  | unsubscribe (cid : String) (ids : List String)

/-- Apply one operation; a `subscribe` that raises leaves the state
unchanged (the WS endpoint catches the `ValueError`). -/
def applyCMOp (s : CMState) : CMOp → CMState
  | .register cid uid => register s cid uid
  | .unregister cid cs cc => (unregisterM s cid cs cc).1
  | .subscribe cid ids =>
    match subscribe s cid ids with
    | .ok s' => s'
    | .error _ => s
  | .unsubscribe cid ids => unsubscribeM s cid ids

/-- Manager states reachable from a fresh manager by any sequence of
operations.  The `register` step carries the uuid4 freshness fact: a
newly minted connection id is not already registered. -/
inductive CMReachable (m : Nat) : CMState → Prop where
  | init : CMReachable m (initState m)
  | register {s : CMState} (cid uid : String) :
      CMReachable m s → s.conns cid = none → CMReachable m (register s cid uid)
  | unregister {s : CMState} (cid : String) (cs : Bool) (cc : Nat) :
      CMReachable m s → CMReachable m ((unregisterM s cid cs cc).1)
  | subscribe {s : CMState} (cid : String) (ids : List String) :
      CMReachable m s → CMReachable m (applyCMOp s (.subscribe cid ids))
  | unsubscribe {s : CMState} (cid : String) (ids : List String) :
      CMReachable m s → CMReachable m (unsubscribeM s cid ids)

/-- Mutual consistency of the manager's three indexes:
1. the reverse conversation index holds exactly the registered
   connections subscribed to each conversation;
2. the user index only holds registered connections of that user;
3./4. every stored set in either reverse index is non-empty;
5./6. popped keys hold no residual value (so `get` and `val` agree). -/
def CMInv (s : CMState) : Prop :=
  (∀ v c, c ∈ s.byConv.get v ↔
    ∃ ctx, s.conns c = some ctx ∧ v ∈ ctx.subscriptions) ∧
  (∀ u c, c ∈ s.byUser.get u → ∃ ctx, s.conns c = some ctx ∧ ctx.user_id = u) ∧
  (∀ v ∈ s.byConv.dom, (s.byConv.val v).Nonempty) ∧
  (∀ u ∈ s.byUser.dom, (s.byUser.val u).Nonempty) ∧
  (∀ v, v ∉ s.byConv.dom → s.byConv.val v = ∅) ∧
  (∀ u, u ∉ s.byUser.dom → s.byUser.val u = ∅)

/-! ## Sync view (`app/api/v1/sync.py`, `app/services/message_service.py`) -/

/-- Ascending `seq` order. -/
def Message.seqLe (a b : Message) : Prop := a.seq ≤ b.seq

instance : DecidableRel Message.seqLe := fun a b =>
  inferInstanceAs (Decidable (a.seq ≤ b.seq))

instance : IsTotal Message Message.seqLe := ⟨fun a b => Nat.le_total a.seq b.seq⟩

instance : IsTrans Message Message.seqLe := ⟨fun _ _ _ h h' => Nat.le_trans h h'⟩

/-- `list_messages(db, conversation_id=…, after_seq=…, limit=…)`:
`WHERE conversation_id = … AND seq > after_seq ORDER BY seq ASC
LIMIT limit`. -/
def list_messages (s : Store) (conversation_id : String) (after_seq limit : Nat) :
    List Message :=
  ((s.messages.filter fun m =>
      m.conversation_id = conversation_id ∧ after_seq < m.seq).insertionSort
    Message.seqLe).take limit

/-- `ORDER BY coalesce(last_message_at, updated_at) DESC`. -/
def Conversation.sortKey (c : Conversation) : Nat :=
  c.last_message_at.getD c.updated_at

/-- Descending recency order on conversations. -/
def Conversation.recentGe (a b : Conversation) : Prop := b.sortKey ≤ a.sortKey

instance : DecidableRel Conversation.recentGe := fun a b =>
  inferInstanceAs (Decidable (b.sortKey ≤ a.sortKey))

instance : IsTotal Conversation Conversation.recentGe :=
  ⟨fun a b => Nat.le_total b.sortKey a.sortKey⟩

instance : IsTrans Conversation Conversation.recentGe :=
  ⟨fun _ _ _ h h' => Nat.le_trans h' h⟩

/-- `list_user_conversations(db, user_id)`: the conversations joined to a
membership row of the user (the composite primary key of
`conversation_members` gives one row per conversation), ordered by
recency. -/
def list_user_conversations (s : Store) (user_id : String) : List Conversation :=
  (s.conversations.filter fun c => (c.id, user_id) ∈ s.members).insertionSort
    Conversation.recentGe

/-- `after_map.get(conversation_id, 0)`: a conversation absent from the
mapping uses floor 0. -/
def afterFloor (afterMap : List (String × Nat)) (conversation_id : String) : Nat :=
  ((afterMap.find? fun p => p.1 = conversation_id).map Prod.snd).getD 0

/-- The message part of `sync_changes`: for each conversation of the
requester, `list_messages` after the mapped floor with limit 100,
extended in conversation order (empty lists contribute nothing). -/
def sync_changes (s : Store) (requester : String)
    (afterMap : List (String × Nat)) : List Message :=
  (list_user_conversations s requester).flatMap fun conv =>
    list_messages s conv.id (afterFloor afterMap conv.id) 100

/-! ## Shared helper lemmas and concrete fixtures -/

/-- A two-member direct conversation used by concrete witnesses. -/
def demoConversation : Conversation :=
  { id := "c1", ctype := "direct", created_at := 0, updated_at := 0
    last_message_preview := none, last_message_at := none }

/-- A store holding one fresh direct conversation between `u1` and `u2`. -/
def demoStore : Store :=
  { users := ["u1", "u2"]
    conversations := [demoConversation]
    members := [("c1", "u1"), ("c1", "u2")]
    counters := [("c1", 1)]
    messages := []
    outbox := [] }

/-- A message already persisted with seq 1 by `u1` under client key `k0`. -/
def demoMessage : Message :=
  { id := "m0", conversation_id := "c1", sender_id := "u1"
    client_message_id := "k0", seq := 1, content := "hi", created_at := 5 }

/-- `demoStore` after `demoMessage` was persisted. -/
def demoStore2 : Store :=
  { demoStore with messages := [demoMessage], counters := [("c1", 2)] }

/-- The idempotent-replay branch of `send_message`: an existing row for
`(sender_id, client_message_id)` in the requested conversation is
returned as-is, with `created = False`, and the store is untouched. -/
lemma send_message_replay (s : Store) (cid sid cmid content : String)
    (now : Nat) (newId : String) (m : Message)
    (hfind : findByClientKey s.messages sid cmid = some m)
    (hconv : m.conversation_id = cid) :
    send_message s cid sid cmid content now newId =
      .ok (s, serializeMessage m, false) := by
  unfold send_message
  rw [hfind]
  simp [hconv]

/-- The conflict branch of `send_message`: an existing row for the key in
a different conversation raises `client_message_conflict` (409). -/
lemma send_message_conflict (s : Store) (cid sid cmid content : String)
    (now : Nat) (newId : String) (m : Message)
    (hfind : findByClientKey s.messages sid cmid = some m)
    (hconv : m.conversation_id ≠ cid) :
    send_message s cid sid cmid content now newId =
      .error (.apiError 409 "client_message_conflict") := by
  unfold send_message
  rw [hfind]
  simp [hconv]

/-- The creating branch of `send_message`: no existing row for the key,
an existing conversation, and no committed row already holding the
allocated `seq` — exactly one new message row is appended and returned
with `created = True`. -/
lemma send_message_creates (s : Store) (cid sid cmid content : String)
    (now : Nat) (newId : String)
    (hfind : findByClientKey s.messages sid cmid = none)
    (conv : Conversation) (hconv : getConversation s cid = some conv)
    (hnocol : ¬ s.messages.any fun m =>
      m.conversation_id = cid ∧ m.seq = (getCounter s cid).getD 1) :
    send_message s cid sid cmid content now newId =
      .ok
        ({ s with
            counters := setCounter s cid ((getCounter s cid).getD 1 + 1)
            messages := s.messages ++
              [{ id := newId
                 conversation_id := cid
                 sender_id := sid
                 client_message_id := cmid
                 seq := (getCounter s cid).getD 1
                 content := content
                 created_at := now }]
            conversations := touchConversation s.conversations cid content now },
          serializeMessage
            { id := newId
              conversation_id := cid
              sender_id := sid
              client_message_id := cmid
              seq := (getCounter s cid).getD 1
              content := content
              created_at := now },
          true) := by
  unfold send_message
  rw [hfind, hconv]
  simp only [decide_eq_true_eq]
  rw [if_neg hnocol]

/-! ## Claim theorems -/

/-- C1 — code bug.  The spec requires `send_message` to insert exactly
two `RealtimeOutboxEvent` rows (`message.created`,
`conversation.updated`) in the same transaction as a created message.
The code never does: `realtime_service.enqueue_message_created` and
`enqueue_conversation_updated` exist but have no caller, so the outbox
table is unchanged on every path of `send_message` — committed create,
idempotent replay, and every rolled-back error alike. -/
theorem C1_send_message_writes_no_outbox_rows
    (s : Store) (cid sid cmid content : String) (now : Nat) (newId : String) :
    (applyOp s (.send cid sid cmid content now newId)).outbox = s.outbox := by
  simp only [applyOp]
  cases hf : findByClientKey s.messages sid cmid with
  | some m0 =>
    by_cases hc : m0.conversation_id = cid
    · rw [send_message_replay s cid sid cmid content now newId m0 hf hc]
    · rw [send_message_conflict s cid sid cmid content now newId m0 hf hc]
  | none =>
    cases hg : getConversation s cid with
    | none =>
      unfold send_message
      rw [hf, hg]
    | some conv =>
      by_cases hcol : s.messages.any fun m =>
        m.conversation_id = cid ∧ m.seq = (getCounter s cid).getD 1
      · unfold send_message
        rw [hf, hg]
        simp only [hcol, if_true]
      · rw [send_message_creates s cid sid cmid content now newId hf conv hg hcol]

/-- C2 — counterexample to the claim as stated.  In a store with no
messages at all, `send_message` for an absent conversation finds no
existing `(sender_id, client_message_id)` row, yet persists nothing and
returns `conversation_not_found` instead of a created message: the
claim's unconditional "if no such message exists, exactly one new row is
persisted and the call returns it with created=true" is false. -/
theorem C2_counterexample_missing_conversation :
    findByClientKey (Store.messages ⟨[], [], [], [], [], []⟩) "u1" "k1" = none ∧
    send_message ⟨[], [], [], [], [], []⟩ "c1" "u1" "k1" "hello" 0 "m1" =
      .error (.apiError 404 "conversation_not_found") := by
  constructor <;> rfl

/-- C2 (amended) — for every call of
`send_message(conversation_id, sender_id, client_message_id, content)`:
if a message with the same `(sender_id, client_message_id)` exists, then
when its `conversation_id` equals the given one the call returns that
message with `created=false` and persists nothing new, and otherwise it
fails with `client_message_conflict` (409); if no such message exists
**and the conversation exists** (and no persisted row already occupies
the allocated seq, which the counter invariant guarantees), exactly one
new row is persisted and the call returns it with `created=true`. -/
theorem C2_idempotent_writer
    (s : Store) (cid sid cmid content : String) (now : Nat) (newId : String) :
    (∀ m, findByClientKey s.messages sid cmid = some m →
      (m.conversation_id = cid →
        send_message s cid sid cmid content now newId =
          .ok (s, serializeMessage m, false)) ∧
      (m.conversation_id ≠ cid →
        send_message s cid sid cmid content now newId =
          .error (.apiError 409 "client_message_conflict"))) ∧
    (findByClientKey s.messages sid cmid = none →
      ∀ conv, getConversation s cid = some conv →
      (¬ s.messages.any fun m =>
        m.conversation_id = cid ∧ m.seq = (getCounter s cid).getD 1) →
      ∃ s' newMsg,
        send_message s cid sid cmid content now newId =
          .ok (s', serializeMessage newMsg, true) ∧
        s'.messages = s.messages ++ [newMsg] ∧
        newMsg.conversation_id = cid ∧
        newMsg.sender_id = sid ∧
        newMsg.client_message_id = cmid ∧
        newMsg.content = content) := by
  refine ⟨fun m hfind => ⟨fun hconv => ?_, fun hconv => ?_⟩, fun hfind conv hconv hnocol => ?_⟩
  · exact send_message_replay s cid sid cmid content now newId m hfind hconv
  · exact send_message_conflict s cid sid cmid content now newId m hfind hconv
  · refine ⟨_, _, send_message_creates s cid sid cmid content now newId hfind conv hconv hnocol,
      rfl, rfl, rfl, rfl, rfl⟩

/-- Witness for `C2_idempotent_writer`: all three branches at concrete
stores — replay of `demoMessage`, reuse of its key for conversation
`c9`, and a fresh create in `demoStore`. -/
theorem C2_idempotent_writer_witness :
    (send_message demoStore2 "c1" "u1" "k0" "ignored" 7 "m9" =
      .ok (demoStore2, serializeMessage demoMessage, false)) ∧
    (send_message demoStore2 "c9" "u1" "k0" "hello" 7 "m9" =
      .error (.apiError 409 "client_message_conflict")) ∧
    (∃ s' newMsg,
      send_message demoStore "c1" "u1" "k1" "hello" 7 "m9" =
        .ok (s', serializeMessage newMsg, true) ∧
      s'.messages = demoStore.messages ++ [newMsg] ∧
      newMsg.conversation_id = "c1" ∧
      newMsg.sender_id = "u1" ∧
      newMsg.client_message_id = "k1" ∧
      newMsg.content = "hello") := by
  refine ⟨((C2_idempotent_writer demoStore2 "c1" "u1" "k0" "ignored" 7 "m9").1
      demoMessage (by decide)).1 (by decide),
    ((C2_idempotent_writer demoStore2 "c9" "u1" "k0" "hello" 7 "m9").1
      demoMessage (by decide)).2 (by decide),
    (C2_idempotent_writer demoStore "c1" "u1" "k1" "hello" 7 "m9").2
      (by decide) demoConversation (by decide) (by decide)⟩

/-- C10 — the idempotent replay of `send_message` is a pure read: when an
existing message matches `(sender_id, client_message_id)` in the same
conversation, the call returns the stored row exactly as persisted
(`_serialize_message existing`) with `created=false`, and the returned
store is the input store itself — no row inserted, counters,
`updated_at`, `last_message_at` and `last_message_preview` untouched —
for every `content` argument, equal to the stored content or not (the
replay never compares content). -/
theorem C10_replay_leaves_store_unchanged
    (s : Store) (cid sid cmid content : String) (now : Nat) (newId : String)
    (m : Message)
    (hfind : findByClientKey s.messages sid cmid = some m)
    (hconv : m.conversation_id = cid) :
    send_message s cid sid cmid content now newId =
      .ok (s, serializeMessage m, false) :=
  send_message_replay s cid sid cmid content now newId m hfind hconv

/-- Witness for `C10_replay_leaves_store_unchanged`: replaying
`demoMessage`'s key with a *different* content argument returns the
stored message and the unchanged store. -/
theorem C10_replay_leaves_store_unchanged_witness :
    send_message demoStore2 "c1" "u1" "k0" "completely different content" 99 "m9" =
      .ok (demoStore2, serializeMessage demoMessage, false) :=
  C10_replay_leaves_store_unchanged demoStore2 "c1" "u1" "k0"
    "completely different content" 99 "m9" demoMessage (by decide) (by decide)

/-! ## Dispatcher theorems (C4) -/

/-- Every event of the selected batch is a row of the events table. -/
lemma mem_of_mem_selectBatch {now batch_size : Nat}
    {events : List RealtimeOutboxEvent} {e : RealtimeOutboxEvent}
    (h : e ∈ selectBatch now batch_size events) : e ∈ events := by
  unfold selectBatch at h
  have h1 := List.take_subset batch_size _ h
  have h2 := (List.perm_insertionSort RealtimeOutboxEvent.le _).mem_iff.mp h1
  exact (List.mem_filter.mp h2).1

/-- A due event failed by the publisher: the three fields of the backoff
update. -/
lemma processEvent_failure (pub : RealtimeOutboxEvent → Option String)
    (now : Nat) (e : RealtimeOutboxEvent) (err : String) (h : pub e = some err) :
    processEvent pub now e =
      { e with
          attempts := e.attempts + 1
          next_attempt_at := now + min 30000 (500 * 2 ^ e.attempts)
          last_error := some (err.take 1000) } := by
  unfold processEvent
  rw [h]
  simp

/-- Sample failing-then-ignored publisher for witnesses: event id 1
raises `"boom"`, everything else publishes. -/
def demoPub : RealtimeOutboxEvent → Option String :=
  fun e => if e.id = 1 then some "boom" else none

/-- An unpublished outbox event with surrogate id 1 and 0 attempts. -/
def demoEvent1 : RealtimeOutboxEvent :=
  { id := 1, event_id := "e1", event_type := "message.created"
    conversation_id := "c1", payload_json := "{}", created_at := 0
    published_at := none, attempts := 0, next_attempt_at := 0, last_error := none }

/-- An unpublished outbox event with surrogate id 2. -/
def demoEvent2 : RealtimeOutboxEvent :=
  { id := 2, event_id := "e2", event_type := "conversation.updated"
    conversation_id := "c1", payload_json := "{}", created_at := 0
    published_at := none, attempts := 0, next_attempt_at := 0, last_error := none }

/-- C4 — for every outbox event of a `process_once` batch (pending,
due, within the id-ordered batch limit): on publisher success the event
gets `published_at = now` and `last_error = NULL` with `attempts`
unchanged; on failure `attempts` is incremented, `next_attempt_at`
becomes `now + min(30 s, 0.5 s · 2^(attempts−1))` in milliseconds with
the incremented attempts (exponent `e.attempts`), and `last_error` holds
the error text truncated to 1000 characters; and independently of how
the publisher treats the other events, this event's updated row reaches
the committed table and the whole selected batch is counted as
processed. -/
theorem C4_dispatcher_backoff (pub : RealtimeOutboxEvent → Option String)
    (now batch_size : Nat) (events : List RealtimeOutboxEvent)
    (e : RealtimeOutboxEvent) (hsel : e ∈ selectBatch now batch_size events) :
    (pub e = none →
      processEvent pub now e =
        { e with published_at := some now, last_error := none } ∧
      (processEvent pub now e).attempts = e.attempts) ∧
    (∀ err, pub e = some err →
      (processEvent pub now e).attempts = e.attempts + 1 ∧
      (processEvent pub now e).next_attempt_at =
        now + min 30000 (500 * 2 ^ e.attempts) ∧
      (processEvent pub now e).last_error = some (err.take 1000) ∧
      (processEvent pub now e).published_at = e.published_at) ∧
    processEvent pub now e ∈ (process_once pub now batch_size events).1 ∧
    (process_once pub now batch_size events).2 =
      (selectBatch now batch_size events).length := by
  have hne : ¬ (selectBatch now batch_size events).isEmpty := by
    intro hempty
    rw [List.isEmpty_iff] at hempty
    rw [hempty] at hsel
    exact List.not_mem_nil e hsel
  refine ⟨fun hok => ?_, fun err herr => ?_, ?_, ?_⟩
  · constructor
    · unfold processEvent; rw [hok]
    · unfold processEvent; rw [hok]
  · rw [processEvent_failure pub now e err herr]
    exact ⟨rfl, rfl, rfl, rfl⟩
  · have hev : e ∈ events := mem_of_mem_selectBatch hsel
    unfold process_once
    rw [if_neg hne]
    have hcond : (selectBatch now batch_size events).any (fun x => x.id = e.id) = true :=
      List.any_eq_true.mpr ⟨e, hsel, by simp⟩
    refine List.mem_map.mpr ⟨e, hev, ?_⟩
    simp only [hcond, if_true]
  · unfold process_once
    rw [if_neg hne]

/-- Witness for `C4_dispatcher_backoff`: a two-event due batch where the
publisher fails event 1 and publishes event 2; event 1's failure does not
keep event 2 out of the processed batch of size 2. -/
theorem C4_dispatcher_backoff_witness :
    ((demoPub demoEvent1 = none →
      processEvent demoPub 10 demoEvent1 =
        { demoEvent1 with published_at := some 10, last_error := none } ∧
      (processEvent demoPub 10 demoEvent1).attempts = demoEvent1.attempts) ∧
    (∀ err, demoPub demoEvent1 = some err →
      (processEvent demoPub 10 demoEvent1).attempts = demoEvent1.attempts + 1 ∧
      (processEvent demoPub 10 demoEvent1).next_attempt_at =
        10 + min 30000 (500 * 2 ^ demoEvent1.attempts) ∧
      (processEvent demoPub 10 demoEvent1).last_error = some (err.take 1000) ∧
      (processEvent demoPub 10 demoEvent1).published_at = demoEvent1.published_at) ∧
    processEvent demoPub 10 demoEvent1 ∈
      (process_once demoPub 10 50 [demoEvent1, demoEvent2]).1 ∧
    (process_once demoPub 10 50 [demoEvent1, demoEvent2]).2 =
      (selectBatch 10 50 [demoEvent1, demoEvent2]).length) ∧
    processEvent demoPub 10 demoEvent2 ∈
      (process_once demoPub 10 50 [demoEvent1, demoEvent2]).1 :=
  ⟨C4_dispatcher_backoff demoPub 10 50 [demoEvent1, demoEvent2] demoEvent1 (by decide),
    (C4_dispatcher_backoff demoPub 10 50 [demoEvent1, demoEvent2] demoEvent2
      (by decide)).2.2.1⟩

/-! ## Connection-manager send theorem (C6) -/

/-- C6 — `ConnectionManager.send` on a registered connection enqueues the
frame without waiting onto the bounded queue (capacity 200, fixed by
`register`) and returns `True`; on a full queue it unregisters the
connection, closing the socket with code 1013, and returns `False`; an
unknown `connection_id` returns `False` and changes nothing. -/
theorem C6_send_backpressure (s : CMState) (cid payload : String) :
    queueCapacity = 200 ∧
    (s.conns cid = none → send s cid payload = (false, s, none)) ∧
    (∀ ctx, s.conns cid = some ctx →
      (ctx.queue.length < queueCapacity →
        send s cid payload =
          (true,
            { s with
                conns := fun c =>
                  if c = cid then some { ctx with queue := ctx.queue ++ [payload] }
                  else s.conns c },
            none)) ∧
      (¬ ctx.queue.length < queueCapacity →
        send s cid payload = (false, (unregisterM s cid true 1013).1, some 1013) ∧
        (unregisterM s cid true 1013).1.conns cid = none)) := by
  refine ⟨rfl, fun hnone => ?_, fun ctx hctx => ⟨fun hroom => ?_, fun hfull => ?_⟩⟩
  · unfold send
    rw [hnone]
  · unfold send
    rw [hctx]
    simp only [hroom, if_true]
  · constructor
    · unfold send
      rw [hctx]
      simp only [hfull, if_false]
      unfold unregisterM
      rw [hctx]
      rfl
    · unfold unregisterM
      rw [hctx]
      simp

/-- A manager with one registered connection `w1` of user `u1`. -/
def demoCM : CMState := register (initState 5) "w1" "u1"

/-- The context `register` stored for `w1`. -/
def demoCtxEmpty : ConnCtx :=
  { user_id := "u1", queue := [], subscriptions := ∅ }

/-- `w1`'s context once its outgoing queue is full (200 frames). -/
def demoCtxFull : ConnCtx :=
  { user_id := "u1", queue := List.replicate 200 "old", subscriptions := ∅ }

/-- `demoCM` with `w1`'s queue full. -/
def demoCMFull : CMState :=
  { demoCM with
      conns := fun c => if c = "w1" then some demoCtxFull else demoCM.conns c }

/-- Witness for `C6_send_backpressure`: a manager with one registered
connection `w1` of user `u1`; a send to `w1` succeeds on its empty
queue, a send to the unknown id `w9` returns false and leaves the state,
and on a 200-frame queue a send disconnects with 1013. -/
theorem C6_send_backpressure_witness :
    (send demoCM "w1" "frame" =
      (true,
        { demoCM with
            conns := fun c =>
              if c = "w1" then
                some { demoCtxEmpty with queue := demoCtxEmpty.queue ++ ["frame"] }
              else demoCM.conns c },
        none)) ∧
    (send (initState 5) "w9" "frame" = (false, initState 5, none)) ∧
    (send demoCMFull "w1" "frame" =
      (false, (unregisterM demoCMFull "w1" true 1013).1, some 1013)) := by
  refine ⟨?_, ?_, ?_⟩
  · exact ((C6_send_backpressure demoCM "w1" "frame").2.2 demoCtxEmpty rfl).1
      (by simp [demoCtxEmpty, queueCapacity])
  · exact (C6_send_backpressure (initState 5) "w9" "frame").2.1 rfl
  · exact (((C6_send_backpressure demoCMFull "w1" "frame").2.2 demoCtxFull rfl).2
      (by simp only [demoCtxFull, queueCapacity, List.length_replicate]; omega)).1

/-! ## SetDict and deduplication lemmas -/

/-- Values never linger for keys outside the dictionary. -/
def SetDict.JunkFree (d : SetDict) : Prop := ∀ x ∉ d.dom, d.val x = ∅

lemma SetDict.get_of_mem_dom {d : SetDict} {x : String} (h : x ∈ d.dom) :
    d.get x = d.val x := if_pos h

lemma SetDict.get_of_not_mem_dom {d : SetDict} {x : String} (h : x ∉ d.dom) :
    d.get x = ∅ := if_neg h

lemma SetDict.get_setdefaultAdd (d : SetDict) (k c x : String) :
    (d.setdefaultAdd k c).get x = if x = k then insert c (d.get k) else d.get x := by
  by_cases hx : x = k
  · subst hx
    simp [SetDict.get, SetDict.setdefaultAdd]
  · simp only [SetDict.get, SetDict.setdefaultAdd, Finset.mem_insert, hx, if_false]
    by_cases hdom : x ∈ d.dom <;> simp [hdom, hx]

lemma SetDict.mem_dom_setdefaultAdd (d : SetDict) (k c x : String) :
    x ∈ (d.setdefaultAdd k c).dom ↔ x = k ∨ x ∈ d.dom := Finset.mem_insert

lemma SetDict.get_discardPop (d : SetDict) (k c x : String) :
    (d.discardPop k c).get x = if x = k then (d.get x).erase c else d.get x := by
  unfold SetDict.discardPop
  by_cases hk : k ∈ d.dom
  · by_cases he : (d.val k).erase c = ∅
    · simp only [hk, if_true, he]
      by_cases hx : x = k
      · subst hx
        simp [SetDict.get, hk, he]
      · simp [SetDict.get, Finset.mem_erase, hx]
    · simp only [hk, if_true, he, if_false]
      by_cases hx : x = k
      · subst hx
        simp [SetDict.get, hk]
      · simp [SetDict.get, hx]
  · simp only [hk, if_false]
    by_cases hx : x = k
    · subst hx
      simp [SetDict.get_of_not_mem_dom hk]
    · simp [hx]

lemma SetDict.mem_dom_discardPop (d : SetDict) (k c x : String) :
    x ∈ (d.discardPop k c).dom ↔
      x ∈ d.dom ∧ (x = k → (d.get k).erase c ≠ ∅) := by
  unfold SetDict.discardPop
  by_cases hk : k ∈ d.dom
  · by_cases he : (d.val k).erase c = ∅
    · simp only [hk, if_true, he]
      rw [SetDict.get_of_mem_dom hk]
      by_cases hx : x = k
      · subst hx
        simp [hk, he]
      · simp [Finset.mem_erase, hx]
    · simp only [hk, if_true, he, if_false]
      rw [SetDict.get_of_mem_dom hk]
      by_cases hx : x = k
      · subst hx
        simp [hk, he]
      · simp [hx]
  · simp only [hk, if_false]
    by_cases hx : x = k
    · subst hx
      simp [hk]
    · simp [hx]

lemma SetDict.JunkFree.setdefaultAdd {d : SetDict} (hj : d.JunkFree) (k c : String) :
    (d.setdefaultAdd k c).JunkFree := by
  intro x hx
  rw [SetDict.mem_dom_setdefaultAdd] at hx
  push_neg at hx
  show (if x = k then insert c (d.get k) else d.val x) = ∅
  rw [if_neg hx.1]
  exact hj x hx.2

lemma SetDict.JunkFree.discardPop {d : SetDict} (hj : d.JunkFree) (k c : String) :
    (d.discardPop k c).JunkFree := by
  intro x hx
  rw [SetDict.mem_dom_discardPop] at hx
  unfold SetDict.discardPop
  by_cases hk : k ∈ d.dom
  · by_cases he : (d.val k).erase c = ∅
    · simp only [hk, if_true, he]
      by_cases hxk : x = k
      · simp [hxk]
      · show (if x = k then (∅ : Finset String) else d.val x) = ∅
        rw [if_neg hxk]
        refine hj x fun hdom => hx ⟨hdom, ?_⟩
        intro hxk2
        exact absurd hxk2 hxk
    · simp only [hk, if_true, he, if_false]
      by_cases hxk : x = k
      · subst hxk
        exact absurd ⟨hk, fun _ => by rwa [SetDict.get_of_mem_dom hk]⟩ hx
      · show (if x = k then (d.val k).erase c else d.val x) = ∅
        rw [if_neg hxk]
        refine hj x fun hdom => hx ⟨hdom, fun hxk2 => absurd hxk2 hxk⟩
  · simp only [hk, if_false]
    refine hj x fun hdom => hx ⟨hdom, fun hxk => ?_⟩
    subst hxk
    exact absurd hdom hk

lemma SetDict.get_foldl_discardPop (c : String) (l : List String) (d : SetDict)
    (x : String) :
    (l.foldl (fun d v => d.discardPop v c) d).get x =
      if x ∈ l then (d.get x).erase c else d.get x := by
  induction l generalizing d with
  | nil => simp
  | cons a l ih =>
    rw [List.foldl_cons, ih]
    rw [SetDict.get_discardPop]
    by_cases hxl : x ∈ l
    · by_cases hxa : x = a <;> simp [hxl, hxa, Finset.erase_idem]
    · by_cases hxa : x = a <;> simp [hxl, hxa]

lemma SetDict.mem_dom_foldl_discardPop (c : String) (l : List String) (d : SetDict)
    (x : String) :
    x ∈ (l.foldl (fun d v => d.discardPop v c) d).dom ↔
      x ∈ d.dom ∧ (x ∈ l → (d.get x).erase c ≠ ∅) := by
  induction l generalizing d with
  | nil => simp
  | cons a l ih =>
    rw [List.foldl_cons, ih]
    rw [SetDict.mem_dom_discardPop, SetDict.get_discardPop]
    by_cases hxa : x = a
    · subst hxa
      rw [if_pos rfl]
      constructor
      · rintro ⟨⟨h1, h2⟩, -⟩
        exact ⟨h1, fun _ => h2 rfl⟩
      · rintro ⟨h1, h2⟩
        have he := h2 (List.mem_cons_self x l)
        refine ⟨⟨h1, fun _ => he⟩, fun _ => ?_⟩
        rw [Finset.erase_idem]
        exact he
    · rw [if_neg hxa]
      constructor
      · rintro ⟨⟨h1, h2⟩, h3⟩
        refine ⟨h1, fun hm => ?_⟩
        rcases List.mem_cons.mp hm with rfl | hm
        · exact absurd rfl hxa
        · exact h3 hm
      · rintro ⟨h1, h2⟩
        exact ⟨⟨h1, fun hxa2 => absurd hxa2 hxa⟩,
          fun hm => h2 (List.mem_cons_of_mem a hm)⟩

lemma SetDict.JunkFree.foldl_discardPop {d : SetDict} (hj : d.JunkFree)
    (c : String) (l : List String) :
    (l.foldl (fun d v => d.discardPop v c) d).JunkFree := by
  induction l generalizing d with
  | nil => exact hj
  | cons a l ih => exact ih (hj.discardPop a c)

lemma mem_pyDedupAux (l : List String) :
    ∀ (seen : List String) (a : String),
      a ∈ pyDedupAux seen l ↔ a ∈ l ∧ a ∉ seen := by
  induction l with
  | nil => intro seen a; simp [pyDedupAux]
  | cons b rest ih =>
    intro seen a
    show a ∈ (if b ∈ seen then pyDedupAux seen rest
      else b :: pyDedupAux (b :: seen) rest) ↔ _
    by_cases hb : b ∈ seen
    · rw [if_pos hb, ih]
      constructor
      · rintro ⟨h1, h2⟩
        exact ⟨List.mem_cons_of_mem b h1, h2⟩
      · rintro ⟨h1, h2⟩
        rcases List.mem_cons.mp h1 with rfl | h1
        · exact absurd hb h2
        · exact ⟨h1, h2⟩
    · rw [if_neg hb]
      simp only [List.mem_cons, ih]
      constructor
      · rintro (rfl | ⟨h1, h2⟩)
        · exact ⟨Or.inl rfl, hb⟩
        · exact ⟨Or.inr h1, fun hs => h2 (Or.inr hs)⟩
      · rintro ⟨rfl | h1, h2⟩
        · exact Or.inl rfl
        · by_cases hab : a = b
          · exact Or.inl hab
          · exact Or.inr ⟨h1, fun hs => hs.elim hab h2⟩

/-- `list(dict.fromkeys(·))` keeps exactly the members of the input. -/
lemma mem_pyDedup (l : List String) (a : String) : a ∈ pyDedup l ↔ a ∈ l := by
  rw [pyDedup, mem_pyDedupAux]
  simp

lemma pyDedupAux_nodup (l : List String) :
    ∀ seen : List String, (pyDedupAux seen l).Nodup := by
  induction l with
  | nil => intro seen; simp [pyDedupAux]
  | cons b rest ih =>
    intro seen
    show (if b ∈ seen then pyDedupAux seen rest
      else b :: pyDedupAux (b :: seen) rest).Nodup
    by_cases hb : b ∈ seen
    · rw [if_pos hb]
      exact ih seen
    · rw [if_neg hb]
      refine List.nodup_cons.mpr ⟨fun hmem => ?_, ih (b :: seen)⟩
      exact ((mem_pyDedupAux rest (b :: seen) b).mp hmem).2 (List.mem_cons_self b seen)

/-- `list(dict.fromkeys(·))` has no duplicates. -/
lemma pyDedup_nodup (l : List String) : (pyDedup l).Nodup := pyDedupAux_nodup l []

/-- Deduplication preserves the id set. -/
lemma pyDedup_toFinset (l : List String) : (pyDedup l).toFinset = l.toFinset := by
  ext a
  simp [mem_pyDedup]

lemma pyDedup_ne_nil {l : List String} (h : l ≠ []) : pyDedup l ≠ [] := by
  cases l with
  | nil => exact absurd rfl h
  | cons a rest =>
    show (if a ∈ ([] : List String) then pyDedupAux [] rest
      else a :: pyDedupAux [a] rest) ≠ []
    rw [if_neg (List.not_mem_nil a)]
    exact List.cons_ne_nil a _

/-! ## Subscribe theorems (C5) -/

/-- Through the `subscribe` loop the connection's context accumulates
exactly the requested ids. -/
lemma conns_foldl_addSubscription (cid : String) (ns : List String) :
    ∀ (s : CMState) (ctx : ConnCtx), s.conns cid = some ctx →
      (ns.foldl (fun st v => addSubscription cid v st) s).conns cid =
        some { ctx with subscriptions := ctx.subscriptions ∪ ns.toFinset } := by
  induction ns with
  | nil =>
    intro s ctx h
    simpa using h
  | cons a ns ih =>
    intro s ctx h
    rw [List.foldl_cons]
    have h' : (addSubscription cid a s).conns cid =
        some { ctx with subscriptions := insert a ctx.subscriptions } := by
      unfold addSubscription
      rw [h]
      simp
    rw [ih (addSubscription cid a s) _ h']
    congr 1
    simp [Finset.insert_union, Finset.union_insert]

/-- The `subscribe` loop never removes reverse-index entries. -/
lemma byConv_mem_mono_foldl_addSubscription (cid : String) (ns : List String) :
    ∀ (s : CMState) (v c : String), c ∈ s.byConv.get v →
      c ∈ (ns.foldl (fun st u => addSubscription cid u st) s).byConv.get v := by
  induction ns with
  | nil => intro s v c h; exact h
  | cons a ns ih =>
    intro s v c h
    rw [List.foldl_cons]
    refine ih _ v c ?_
    unfold addSubscription
    cases hc : s.conns cid with
    | none => exact h
    | some ctx =>
      show c ∈ (s.byConv.setdefaultAdd a cid).get v
      rw [SetDict.get_setdefaultAdd]
      by_cases hv : v = a
      · subst hv
        rw [if_pos rfl]
        exact Finset.mem_insert_of_mem h
      · rw [if_neg hv]
        exact h

/-- Every id walked by the `subscribe` loop ends up mapping to the
connection in the reverse index. -/
lemma byConv_mem_of_foldl_addSubscription (cid : String) (ns : List String) :
    ∀ (s : CMState) (ctx : ConnCtx), s.conns cid = some ctx →
      ∀ v ∈ ns,
        cid ∈ (ns.foldl (fun st u => addSubscription cid u st) s).byConv.get v := by
  induction ns with
  | nil => intro s ctx _ v hv; exact absurd hv (List.not_mem_nil v)
  | cons a ns ih =>
    intro s ctx h v hv
    rw [List.foldl_cons]
    have h' : (addSubscription cid a s).conns cid =
        some { ctx with subscriptions := insert a ctx.subscriptions } := by
      unfold addSubscription
      rw [h]
      simp
    rcases List.mem_cons.mp hv with rfl | hv
    · refine byConv_mem_mono_foldl_addSubscription cid ns _ v cid ?_
      show cid ∈ (addSubscription cid v s).byConv.get v
      unfold addSubscription
      rw [h]
      show cid ∈ (s.byConv.setdefaultAdd v cid).get v
      rw [SetDict.get_setdefaultAdd, if_pos rfl]
      exact Finset.mem_insert_self cid _
    · exact ih _ _ h' v hv

/-- C5 — `ConnectionManager.subscribe` on a registered connection:
the requested ids are deduplicated; when the size of the union of the
connection's current subscriptions with the requested ids would exceed
`max_subscriptions_per_connection` the call raises (surfaced by the WS
endpoint as an `INVALID_COMMAND` error frame) before mutating anything;
otherwise every requested id is added both to the connection's
subscription set and to the reverse index
`conversation_id → {connection_ids}`. -/
theorem C5_subscribe_limit (s : CMState) (cid : String) (ids : List String)
    (ctx : ConnCtx) (hconn : s.conns cid = some ctx) (hne : ids ≠ []) :
    ((pyDedup ids).Nodup ∧ (pyDedup ids).toFinset = ids.toFinset) ∧
    (s.maxSubs < (ctx.subscriptions ∪ ids.toFinset).card →
      subscribe s cid ids = .error ()) ∧
    (¬ s.maxSubs < (ctx.subscriptions ∪ ids.toFinset).card →
      ∃ s', subscribe s cid ids = .ok s' ∧
        s'.conns cid =
          some { ctx with subscriptions := ctx.subscriptions ∪ ids.toFinset } ∧
        ∀ v ∈ ids, cid ∈ s'.byConv.get v) := by
  have hnormne : pyDedup ids ≠ [] := pyDedup_ne_nil hne
  have hempty : (pyDedup ids).isEmpty = false := by
    rwa [List.isEmpty_eq_false]
  refine ⟨⟨pyDedup_nodup ids, pyDedup_toFinset ids⟩, fun hover => ?_, fun hok => ?_⟩
  · simp only [subscribe, hempty, Bool.false_eq_true, if_false, hconn, pyDedup_toFinset]
    rw [if_pos hover]
  · refine ⟨(pyDedup ids).foldl (fun st v => addSubscription cid v st) s, ?_, ?_, ?_⟩
    · simp only [subscribe, hempty, Bool.false_eq_true, if_false, hconn, pyDedup_toFinset]
      rw [if_neg hok]
    · rw [conns_foldl_addSubscription cid (pyDedup ids) s ctx hconn, pyDedup_toFinset]
    · intro v hv
      exact byConv_mem_of_foldl_addSubscription cid (pyDedup ids) s ctx hconn v
        ((mem_pyDedup ids v).mpr hv)

/-- Witness for `C5_subscribe_limit`: on `demoCM` (limit 5) subscribing
`w1` to `["cA", "cB", "cA"]` succeeds with the deduplicated pair added
to both indexes; on the same manager rebuilt with limit 1 the projected
size 2 exceeds the limit and the call is rejected. -/
theorem C5_subscribe_limit_witness :
    (¬ demoCM.maxSubs <
        ((∅ : Finset String) ∪ (["cA", "cB", "cA"] : List String).toFinset).card ∧
      ∃ s', subscribe demoCM "w1" ["cA", "cB", "cA"] = .ok s' ∧
        s'.conns "w1" =
          some { demoCtxEmpty with subscriptions :=
            (∅ : Finset String) ∪ (["cA", "cB", "cA"] : List String).toFinset } ∧
        ∀ v ∈ (["cA", "cB", "cA"] : List String), "w1" ∈ s'.byConv.get v) ∧
    (register (initState 1) "w1" "u1").maxSubs <
        ((∅ : Finset String) ∪ (["cA", "cB"] : List String).toFinset).card ∧
    subscribe (register (initState 1) "w1" "u1") "w1" ["cA", "cB"] = .error () := by
  have h1 : ¬ demoCM.maxSubs <
      ((∅ : Finset String) ∪ (["cA", "cB", "cA"] : List String).toFinset).card := by
    decide
  have h2 : (register (initState 1) "w1" "u1").maxSubs <
      ((∅ : Finset String) ∪ (["cA", "cB"] : List String).toFinset).card := by
    decide
  exact ⟨⟨h1,
      (C5_subscribe_limit demoCM "w1" ["cA", "cB", "cA"] demoCtxEmpty rfl
        (by decide)).2.2 h1⟩,
    h2,
    (C5_subscribe_limit (register (initState 1) "w1" "u1") "w1" ["cA", "cB"]
      demoCtxEmpty rfl (by decide)).2.1 h2⟩

/-! ## Connection-manager index invariant (C9) -/

lemma CMInv_initState (m : Nat) : CMInv (initState m) := by
  refine ⟨fun v c => ?_, fun u c h => ?_, fun v hv => ?_, fun u hu => ?_,
    fun v _ => rfl, fun u _ => rfl⟩
  · constructor
    · intro h
      simp [initState, SetDict.empty, SetDict.get] at h
    · rintro ⟨ctx, hc, -⟩
      exact Option.noConfusion hc
  · simp [initState, SetDict.empty, SetDict.get] at h
  · simp [initState, SetDict.empty] at hv
  · simp [initState, SetDict.empty] at hu

lemma CMInv_register {s : CMState} (cid uid : String)
    (hfresh : s.conns cid = none) (hinv : CMInv s) : CMInv (register s cid uid) := by
  obtain ⟨inv1, inv2, inv3, inv4, inv5, inv6⟩ := hinv
  refine ⟨?_, ?_, inv3, ?_, inv5, ?_⟩
  · intro v c
    show c ∈ s.byConv.get v ↔
      ∃ ctx, (if c = cid then some ⟨uid, [], ∅⟩ else s.conns c) = some ctx ∧
        v ∈ ctx.subscriptions
    by_cases hc : c = cid
    · subst hc
      rw [if_pos rfl]
      constructor
      · intro h
        obtain ⟨ctx, hctx, -⟩ := (inv1 v c).mp h
        rw [hfresh] at hctx
        exact Option.noConfusion hctx
      · rintro ⟨ctx, hctx, hv⟩
        obtain rfl := Option.some.inj hctx
        exact absurd hv (Finset.not_mem_empty v)
    · rw [if_neg hc]
      exact inv1 v c
  · intro u c hmem
    have hmem' : c ∈ (s.byUser.setdefaultAdd uid cid).get u := hmem
    rw [SetDict.get_setdefaultAdd] at hmem'
    show ∃ ctx, (if c = cid then some ⟨uid, [], ∅⟩ else s.conns c) = some ctx ∧
      ctx.user_id = u
    by_cases hu : u = uid
    · subst hu
      rw [if_pos rfl] at hmem'
      rcases Finset.mem_insert.mp hmem' with rfl | hmem2
      · exact ⟨⟨u, [], ∅⟩, by rw [if_pos rfl], rfl⟩
      · obtain ⟨ctx, hctx, huser⟩ := inv2 u c hmem2
        have hcc : c ≠ cid := by
          intro h
          rw [h, hfresh] at hctx
          exact Option.noConfusion hctx
        exact ⟨ctx, by rw [if_neg hcc]; exact hctx, huser⟩
    · rw [if_neg hu] at hmem'
      obtain ⟨ctx, hctx, huser⟩ := inv2 u c hmem'
      have hcc : c ≠ cid := by
        intro h
        rw [h, hfresh] at hctx
        exact Option.noConfusion hctx
      exact ⟨ctx, by rw [if_neg hcc]; exact hctx, huser⟩
  · intro u hu
    have hu' : u ∈ (s.byUser.setdefaultAdd uid cid).dom := hu
    show ((s.byUser.setdefaultAdd uid cid).val u).Nonempty
    by_cases huid : u = uid
    · subst huid
      show (if u = u then insert cid (s.byUser.get u) else s.byUser.val u).Nonempty
      rw [if_pos rfl]
      exact Finset.insert_nonempty cid _
    · show (if u = uid then insert cid (s.byUser.get uid) else s.byUser.val u).Nonempty
      rw [if_neg huid]
      rcases (SetDict.mem_dom_setdefaultAdd _ uid cid u).mp hu' with rfl | hu2
      · exact absurd rfl huid
      · exact inv4 u hu2
  · exact SetDict.JunkFree.setdefaultAdd inv6 uid cid

lemma CMInv_addSubscription (cid v : String) {s : CMState} (hinv : CMInv s) :
    CMInv (addSubscription cid v s) := by
  obtain ⟨inv1, inv2, inv3, inv4, inv5, inv6⟩ := hinv
  unfold addSubscription
  cases hc : s.conns cid with
  | none => exact ⟨inv1, inv2, inv3, inv4, inv5, inv6⟩
  | some ctx =>
    refine ⟨?_, ?_, ?_, inv4, ?_, inv6⟩
    · intro w c
      show c ∈ (s.byConv.setdefaultAdd v cid).get w ↔
        ∃ ctx2, (if c = cid then
            some { ctx with subscriptions := insert v ctx.subscriptions }
          else s.conns c) = some ctx2 ∧ w ∈ ctx2.subscriptions
      rw [SetDict.get_setdefaultAdd]
      by_cases hw : w = v
      · subst hw
        rw [if_pos rfl]
        constructor
        · intro hmem
          rcases Finset.mem_insert.mp hmem with rfl | hmem2
          · exact ⟨{ ctx with subscriptions := insert w ctx.subscriptions },
              by rw [if_pos rfl], Finset.mem_insert_self w _⟩
          · obtain ⟨ctx2, hctx2, hw2⟩ := (inv1 w c).mp hmem2
            by_cases hcc : c = cid
            · subst hcc
              rw [hc] at hctx2
              obtain rfl := Option.some.inj hctx2
              exact ⟨{ ctx with subscriptions := insert w ctx.subscriptions },
                by rw [if_pos rfl], Finset.mem_insert_of_mem hw2⟩
            · exact ⟨ctx2, by rw [if_neg hcc]; exact hctx2, hw2⟩
        · rintro ⟨ctx2, hctx2, hw2⟩
          by_cases hcc : c = cid
          · subst hcc
            exact Finset.mem_insert_self c _
          · rw [if_neg hcc] at hctx2
            exact Finset.mem_insert_of_mem ((inv1 w c).mpr ⟨ctx2, hctx2, hw2⟩)
      · rw [if_neg hw]
        constructor
        · intro hmem
          obtain ⟨ctx2, hctx2, hw2⟩ := (inv1 w c).mp hmem
          by_cases hcc : c = cid
          · subst hcc
            rw [hc] at hctx2
            obtain rfl := Option.some.inj hctx2
            exact ⟨{ ctx with subscriptions := insert v ctx.subscriptions },
              by rw [if_pos rfl], Finset.mem_insert_of_mem hw2⟩
          · exact ⟨ctx2, by rw [if_neg hcc]; exact hctx2, hw2⟩
        · rintro ⟨ctx2, hctx2, hw2⟩
          by_cases hcc : c = cid
          · subst hcc
            rw [if_pos rfl] at hctx2
            obtain rfl := Option.some.inj hctx2
            refine (inv1 w c).mpr ⟨ctx, hc, ?_⟩
            rcases Finset.mem_insert.mp hw2 with rfl | h2
            · exact absurd rfl hw
            · exact h2
          · rw [if_neg hcc] at hctx2
            exact (inv1 w c).mpr ⟨ctx2, hctx2, hw2⟩
    · intro u c hmem
      have hmem' : c ∈ s.byUser.get u := hmem
      obtain ⟨ctx2, hctx2, huser⟩ := inv2 u c hmem'
      show ∃ ctx2, (if c = cid then
          some { ctx with subscriptions := insert v ctx.subscriptions }
        else s.conns c) = some ctx2 ∧ ctx2.user_id = u
      by_cases hcc : c = cid
      · subst hcc
        rw [hc] at hctx2
        obtain rfl := Option.some.inj hctx2
        exact ⟨{ ctx with subscriptions := insert v ctx.subscriptions },
          by rw [if_pos rfl], huser⟩
      · exact ⟨ctx2, by rw [if_neg hcc]; exact hctx2, huser⟩
    · intro w hw
      have hw' : w ∈ (s.byConv.setdefaultAdd v cid).dom := hw
      by_cases hwv : w = v
      · subst hwv
        show (if w = w then insert cid (s.byConv.get w) else s.byConv.val w).Nonempty
        rw [if_pos rfl]
        exact Finset.insert_nonempty cid _
      · show (if w = v then insert cid (s.byConv.get v) else s.byConv.val w).Nonempty
        rw [if_neg hwv]
        rcases (SetDict.mem_dom_setdefaultAdd _ v cid w).mp hw' with rfl | hw2
        · exact absurd rfl hwv
        · exact inv3 w hw2
    · exact SetDict.JunkFree.setdefaultAdd inv5 v cid

lemma CMInv_removeSubscription (cid v : String) {s : CMState} (hinv : CMInv s) :
    CMInv (removeSubscription cid v s) := by
  obtain ⟨inv1, inv2, inv3, inv4, inv5, inv6⟩ := hinv
  unfold removeSubscription
  cases hc : s.conns cid with
  | none => exact ⟨inv1, inv2, inv3, inv4, inv5, inv6⟩
  | some ctx =>
    refine ⟨?_, ?_, ?_, inv4, ?_, inv6⟩
    · intro w c
      show c ∈ (s.byConv.discardPop v cid).get w ↔
        ∃ ctx2, (if c = cid then
            some { ctx with subscriptions := ctx.subscriptions.erase v }
          else s.conns c) = some ctx2 ∧ w ∈ ctx2.subscriptions
      rw [SetDict.get_discardPop]
      by_cases hw : w = v
      · subst hw
        rw [if_pos rfl]
        constructor
        · intro hmem
          have hcne := (Finset.mem_erase.mp hmem).1
          obtain ⟨ctx2, hctx2, hw2⟩ := (inv1 w c).mp (Finset.mem_erase.mp hmem).2
          exact ⟨ctx2, by rw [if_neg hcne]; exact hctx2, hw2⟩
        · rintro ⟨ctx2, hctx2, hw2⟩
          by_cases hcc : c = cid
          · rw [if_pos hcc] at hctx2
            obtain rfl := Option.some.inj hctx2
            exact absurd hw2 (by simp)
          · rw [if_neg hcc] at hctx2
            exact Finset.mem_erase.mpr ⟨hcc, (inv1 w c).mpr ⟨ctx2, hctx2, hw2⟩⟩
      · rw [if_neg hw]
        constructor
        · intro hmem
          obtain ⟨ctx2, hctx2, hw2⟩ := (inv1 w c).mp hmem
          by_cases hcc : c = cid
          · subst hcc
            rw [hc] at hctx2
            obtain rfl := Option.some.inj hctx2
            exact ⟨{ ctx with subscriptions := ctx.subscriptions.erase v },
              by rw [if_pos rfl], Finset.mem_erase.mpr ⟨hw, hw2⟩⟩
          · exact ⟨ctx2, by rw [if_neg hcc]; exact hctx2, hw2⟩
        · rintro ⟨ctx2, hctx2, hw2⟩
          by_cases hcc : c = cid
          · subst hcc
            rw [if_pos rfl] at hctx2
            obtain rfl := Option.some.inj hctx2
            exact (inv1 w c).mpr ⟨ctx, hc, (Finset.mem_erase.mp hw2).2⟩
          · rw [if_neg hcc] at hctx2
            exact (inv1 w c).mpr ⟨ctx2, hctx2, hw2⟩
    · intro u c hmem
      have hmem' : c ∈ s.byUser.get u := hmem
      obtain ⟨ctx2, hctx2, huser⟩ := inv2 u c hmem'
      show ∃ ctx2, (if c = cid then
          some { ctx with subscriptions := ctx.subscriptions.erase v }
        else s.conns c) = some ctx2 ∧ ctx2.user_id = u
      by_cases hcc : c = cid
      · subst hcc
        rw [hc] at hctx2
        obtain rfl := Option.some.inj hctx2
        exact ⟨{ ctx with subscriptions := ctx.subscriptions.erase v },
          by rw [if_pos rfl], huser⟩
      · exact ⟨ctx2, by rw [if_neg hcc]; exact hctx2, huser⟩
    · intro w hw
      have hwd : w ∈ (s.byConv.discardPop v cid).dom := hw
      have hw' := hwd
      rw [SetDict.mem_dom_discardPop] at hw'
      obtain ⟨hdom, hcond⟩ := hw'
      show ((s.byConv.discardPop v cid).val w).Nonempty
      rw [← SetDict.get_of_mem_dom hwd, SetDict.get_discardPop]
      by_cases hwv : w = v
      · rw [if_pos hwv]
        subst hwv
        rw [SetDict.get_of_mem_dom hdom] at hcond ⊢
        exact Finset.nonempty_iff_ne_empty.mpr (hcond rfl)
      · rw [if_neg hwv]
        rw [SetDict.get_of_mem_dom hdom]
        exact inv3 w hdom
    · exact SetDict.JunkFree.discardPop inv5 v cid

lemma CMInv_unregister {s : CMState} (cid : String) (cs : Bool) (cc : Nat)
    (hinv : CMInv s) : CMInv (unregisterM s cid cs cc).1 := by
  obtain ⟨inv1, inv2, inv3, inv4, inv5, inv6⟩ := hinv
  unfold unregisterM
  cases hc : s.conns cid with
  | none => exact ⟨inv1, inv2, inv3, inv4, inv5, inv6⟩
  | some ctx =>
    have hlmem : ∀ w, w ∈ ctx.subscriptions.sort (· ≤ ·) ↔ w ∈ ctx.subscriptions :=
      fun w => Finset.mem_sort (α := String) (· ≤ ·)
    refine ⟨?_, ?_, ?_, ?_, ?_, ?_⟩
    · intro w c
      show c ∈ ((ctx.subscriptions.sort (· ≤ ·)).foldl
          (fun d v => d.discardPop v cid) s.byConv).get w ↔
        ∃ ctx2, (if c = cid then none else s.conns c) = some ctx2 ∧
          w ∈ ctx2.subscriptions
      rw [SetDict.get_foldl_discardPop]
      by_cases hwl : w ∈ ctx.subscriptions.sort (· ≤ ·)
      · rw [if_pos hwl]
        constructor
        · intro hmem
          have hcne := (Finset.mem_erase.mp hmem).1
          obtain ⟨ctx2, hctx2, hw2⟩ := (inv1 w c).mp (Finset.mem_erase.mp hmem).2
          exact ⟨ctx2, by rw [if_neg hcne]; exact hctx2, hw2⟩
        · rintro ⟨ctx2, hctx2, hw2⟩
          by_cases hcc : c = cid
          · rw [if_pos hcc] at hctx2
            exact Option.noConfusion hctx2
          · rw [if_neg hcc] at hctx2
            exact Finset.mem_erase.mpr ⟨hcc, (inv1 w c).mpr ⟨ctx2, hctx2, hw2⟩⟩
      · rw [if_neg hwl]
        constructor
        · intro hmem
          obtain ⟨ctx2, hctx2, hw2⟩ := (inv1 w c).mp hmem
          by_cases hcc : c = cid
          · subst hcc
            rw [hc] at hctx2
            obtain rfl := Option.some.inj hctx2
            exact absurd ((hlmem w).mpr hw2) hwl
          · exact ⟨ctx2, by rw [if_neg hcc]; exact hctx2, hw2⟩
        · rintro ⟨ctx2, hctx2, hw2⟩
          by_cases hcc : c = cid
          · rw [if_pos hcc] at hctx2
            exact Option.noConfusion hctx2
          · rw [if_neg hcc] at hctx2
            exact (inv1 w c).mpr ⟨ctx2, hctx2, hw2⟩
    · intro u c hmem
      have hmem' : c ∈ (s.byUser.discardPop ctx.user_id cid).get u := hmem
      rw [SetDict.get_discardPop] at hmem'
      show ∃ ctx2, (if c = cid then none else s.conns c) = some ctx2 ∧
        ctx2.user_id = u
      by_cases hu : u = ctx.user_id
      · rw [if_pos hu] at hmem'
        have hcne := (Finset.mem_erase.mp hmem').1
        obtain ⟨ctx2, hctx2, huser⟩ := inv2 u c (Finset.mem_erase.mp hmem').2
        exact ⟨ctx2, by rw [if_neg hcne]; exact hctx2, huser⟩
      · rw [if_neg hu] at hmem'
        obtain ⟨ctx2, hctx2, huser⟩ := inv2 u c hmem'
        have hcne : c ≠ cid := by
          intro h
          subst h
          rw [hc] at hctx2
          obtain rfl := Option.some.inj hctx2
          exact hu huser.symm
        exact ⟨ctx2, by rw [if_neg hcne]; exact hctx2, huser⟩
    · intro w hw
      have hwd : w ∈ ((ctx.subscriptions.sort (· ≤ ·)).foldl
          (fun d v => d.discardPop v cid) s.byConv).dom := hw
      have hw' := hwd
      rw [SetDict.mem_dom_foldl_discardPop] at hw'
      obtain ⟨hdom, hcond⟩ := hw'
      show (((ctx.subscriptions.sort (· ≤ ·)).foldl
          (fun d v => d.discardPop v cid) s.byConv).val w).Nonempty
      rw [← SetDict.get_of_mem_dom hwd, SetDict.get_foldl_discardPop]
      by_cases hwl : w ∈ ctx.subscriptions.sort (· ≤ ·)
      · rw [if_pos hwl]
        exact Finset.nonempty_iff_ne_empty.mpr (hcond hwl)
      · rw [if_neg hwl]
        rw [SetDict.get_of_mem_dom hdom]
        exact inv3 w hdom
    · intro u hu
      have hud : u ∈ (s.byUser.discardPop ctx.user_id cid).dom := hu
      have hu' := hud
      rw [SetDict.mem_dom_discardPop] at hu'
      obtain ⟨hdom, hcond⟩ := hu'
      show ((s.byUser.discardPop ctx.user_id cid).val u).Nonempty
      rw [← SetDict.get_of_mem_dom hud, SetDict.get_discardPop]
      by_cases huu : u = ctx.user_id
      · rw [if_pos huu]
        subst huu
        rw [SetDict.get_of_mem_dom hdom] at hcond ⊢
        exact Finset.nonempty_iff_ne_empty.mpr (hcond rfl)
      · rw [if_neg huu]
        rw [SetDict.get_of_mem_dom hdom]
        exact inv4 u hdom
    · exact SetDict.JunkFree.foldl_discardPop inv5 cid _
    · exact SetDict.JunkFree.discardPop inv6 ctx.user_id cid

lemma CMInv_foldl_addSubscription (cid : String) (ns : List String) :
    ∀ (s : CMState), CMInv s →
      CMInv (ns.foldl (fun st v => addSubscription cid v st) s) := by
  induction ns with
  | nil => intro s h; exact h
  | cons a ns ih =>
    intro s h
    rw [List.foldl_cons]
    exact ih _ (CMInv_addSubscription cid a h)

lemma CMInv_foldl_removeSubscription (cid : String) (ns : List String) :
    ∀ (s : CMState), CMInv s →
      CMInv (ns.foldl (fun st v => removeSubscription cid v st) s) := by
  induction ns with
  | nil => intro s h; exact h
  | cons a ns ih =>
    intro s h
    rw [List.foldl_cons]
    exact ih _ (CMInv_removeSubscription cid a h)

lemma CMInv_subscribe (s : CMState) (cid : String) (ids : List String)
    (hinv : CMInv s) : CMInv (applyCMOp s (.subscribe cid ids)) := by
  show CMInv (match subscribe s cid ids with | .ok s' => s' | .error _ => s)
  unfold subscribe
  by_cases hemp : (pyDedup ids).isEmpty = true
  · rw [if_pos hemp]
    exact hinv
  · rw [if_neg hemp]
    cases hc : s.conns cid with
    | none => exact hinv
    | some ctx =>
      show CMInv
        (match (if s.maxSubs < (ctx.subscriptions ∪ (pyDedup ids).toFinset).card
            then (Except.error () : Except Unit CMState)
            else .ok ((pyDedup ids).foldl (fun st v => addSubscription cid v st) s)) with
          | .ok s' => s'
          | .error _ => s)
      by_cases hcard :
          s.maxSubs < (ctx.subscriptions ∪ (pyDedup ids).toFinset).card
      · rw [if_pos hcard]
        exact hinv
      · rw [if_neg hcard]
        exact CMInv_foldl_addSubscription cid (pyDedup ids) s hinv

lemma CMInv_unsubscribe (s : CMState) (cid : String) (ids : List String)
    (hinv : CMInv s) : CMInv (unsubscribeM s cid ids) := by
  unfold unsubscribeM
  by_cases hemp : (pyDedup ids).isEmpty = true
  · rw [if_pos hemp]
    exact hinv
  · rw [if_neg hemp]
    cases hc : s.conns cid with
    | none => exact hinv
    | some ctx =>
      exact CMInv_foldl_removeSubscription cid (pyDedup ids) s hinv

/-- C9 — in every connection-manager state reachable by any sequence of
`register`, `unregister`, `subscribe`, `unsubscribe`: a connection id is
in the reverse index `_connections_by_conversation[v]` iff it is a
registered connection whose subscription set contains `v`; every
connection id in `_connections_by_user[u]` is a registered connection of
user `u`; and neither reverse index stores an empty set (emptied keys
are popped). -/
theorem C9_connection_manager_invariant (m : Nat) (s : CMState)
    (h : CMReachable m s) : CMInv s := by
  induction h with
  | init => exact CMInv_initState m
  | register cid uid _ hfresh ih => exact CMInv_register cid uid hfresh ih
  | unregister cid cs cc _ ih => exact CMInv_unregister cid cs cc ih
  | subscribe cid ids _ ih => exact CMInv_subscribe _ cid ids ih
  | unsubscribe cid ids _ ih => exact CMInv_unsubscribe _ cid ids ih

/-- Witness for `C9_connection_manager_invariant`: the invariant at the
state reached by register `w1`, subscribe to `cA` and `cB`, unsubscribe
from `cA`, register `w2`, and unregister `w1`. -/
theorem C9_connection_manager_invariant_witness :
    CMInv
      ((unregisterM
        (register
          (unsubscribeM
            (applyCMOp (register (initState 8) "w1" "u1")
              (.subscribe "w1" ["cA", "cB"]))
            "w1" ["cA"])
          "w2" "u2")
        "w1" true 1000).1) :=
  C9_connection_manager_invariant 8 _
    (CMReachable.unregister "w1" true 1000
      (CMReachable.register "w2" "u2"
        (CMReachable.unsubscribe "w1" ["cA"]
          (CMReachable.subscribe "w1" ["cA", "cB"]
            (CMReachable.register "w1" "u1" CMReachable.init rfl)))
        rfl))

/-! ## Protocol codec theorems (C7) -/

/-- Unfolding of `parse_command` on an in-size object payload. -/
lemma parse_command_obj (rawBytes : Nat) (fields : List (String × Json))
    (max_bytes : Nat) (hsize : ¬ rawBytes > max_bytes) :
    parse_command rawBytes (some (.obj fields)) max_bytes =
      match jsonGet fields "op" with
      | some (.str op) =>
        if op = "subscribe" then validateIdsCommand "subscribe" .subscribe fields
        else if op = "unsubscribe" then validateIdsCommand "unsubscribe" .unsubscribe fields
        else if op = "ping" then validatePing fields
        else .error ⟨"INVALID_COMMAND", "Unsupported command"⟩
      | _ => .error ⟨"INVALID_COMMAND", "Unsupported command"⟩ := by
  unfold parse_command
  rw [if_neg hsize]

/-- Further unfolding when the `op` value is a string: the Python
`if/elif` chain on `decoded.get("op")`. -/
lemma parse_command_obj_op (rawBytes : Nat) (fields : List (String × Json))
    (max_bytes : Nat) (op : String) (hsize : ¬ rawBytes > max_bytes)
    (hG : jsonGet fields "op" = some (.str op)) :
    parse_command rawBytes (some (.obj fields)) max_bytes =
      if op = "subscribe" then validateIdsCommand "subscribe" .subscribe fields
      else if op = "unsubscribe" then validateIdsCommand "unsubscribe" .unsubscribe fields
      else if op = "ping" then validatePing fields
      else .error ⟨"INVALID_COMMAND", "Unsupported command"⟩ := by
  rw [parse_command_obj rawBytes fields max_bytes hsize, hG]

/-- C7 — `parse_command` is total with type
`Except ProtocolError Command`: every outcome is either a well-typed
`subscribe` / `unsubscribe` / `ping` command or a raised
`ProtocolError{code, message}`; and it raises for every frame whose
UTF-8 encoding exceeds `max_bytes`, every non-JSON payload, every
non-object payload, every unknown (or non-string, or absent) `op`,
every frame with extra fields, and every `subscribe`/`unsubscribe` frame
missing the required `conversation_ids` field.  (No required field of
any model is numeric — `ts` is optional — so "negative required field"
has no instances to reject.) -/
theorem C7_parse_command_rejections (rawBytes : Nat) (decoded : Option Json)
    (max_bytes : Nat) :
    (rawBytes > max_bytes →
      ∃ e, parse_command rawBytes decoded max_bytes = .error e) ∧
    (decoded = none →
      ∃ e, parse_command rawBytes decoded max_bytes = .error e) ∧
    (∀ j, decoded = some j → (∀ fields, j ≠ .obj fields) →
      ∃ e, parse_command rawBytes decoded max_bytes = .error e) ∧
    (∀ fields, decoded = some (.obj fields) →
      (∀ op : String, jsonGet fields "op" = some (.str op) →
        op ≠ "subscribe" ∧ op ≠ "unsubscribe" ∧ op ≠ "ping") →
      ∃ e, parse_command rawBytes decoded max_bytes = .error e) ∧
    (∀ fields op, decoded = some (.obj fields) →
      jsonGet fields "op" = some (.str op) →
      (op = "subscribe" ∨ op = "unsubscribe") →
      (fields.all fun p => p.1 = "op" ∨ p.1 = "conversation_ids") = false →
      ∃ e, parse_command rawBytes decoded max_bytes = .error e) ∧
    (∀ fields op, decoded = some (.obj fields) →
      jsonGet fields "op" = some (.str op) →
      (op = "subscribe" ∨ op = "unsubscribe") →
      jsonGet fields "conversation_ids" = none →
      ∃ e, parse_command rawBytes decoded max_bytes = .error e) ∧
    (∀ fields, decoded = some (.obj fields) →
      jsonGet fields "op" = some (.str "ping") →
      (fields.all fun p => p.1 = "op" ∨ p.1 = "ts") = false →
      ∃ e, parse_command rawBytes decoded max_bytes = .error e) := by
  have hbig : rawBytes > max_bytes →
      ∃ e, parse_command rawBytes decoded max_bytes = .error e := by
    intro h
    exact ⟨_, by unfold parse_command; rw [if_pos h]⟩
  refine ⟨hbig, ?_, ?_, ?_, ?_, ?_, ?_⟩
  · intro hdec
    by_cases hsize : rawBytes > max_bytes
    · exact hbig hsize
    · exact ⟨_, by unfold parse_command; rw [if_neg hsize, hdec]⟩
  · intro j hdec hnobj
    by_cases hsize : rawBytes > max_bytes
    · exact hbig hsize
    · refine ⟨⟨"INVALID_COMMAND", "Command payload must be an object"⟩, ?_⟩
      unfold parse_command
      rw [if_neg hsize, hdec]
      cases j with
      | obj fields => exact absurd rfl (hnobj fields)
      | null => rfl
      | bool b => rfl
      | num n => rfl
      | str s => rfl
      | arr l => rfl
  · intro fields hdec hop
    by_cases hsize : rawBytes > max_bytes
    · exact hbig hsize
    · rw [hdec]
      cases hG : jsonGet fields "op" with
      | none =>
        exact ⟨_, by rw [parse_command_obj rawBytes fields max_bytes hsize, hG]⟩
      | some j =>
        cases j with
        | str s =>
          obtain ⟨h1, h2, h3⟩ := hop s hG
          rw [parse_command_obj_op rawBytes fields max_bytes s hsize hG,
            if_neg h1, if_neg h2, if_neg h3]
          exact ⟨_, rfl⟩
        | null =>
          exact ⟨_, by rw [parse_command_obj rawBytes fields max_bytes hsize, hG]⟩
        | bool b =>
          exact ⟨_, by rw [parse_command_obj rawBytes fields max_bytes hsize, hG]⟩
        | num n =>
          exact ⟨_, by rw [parse_command_obj rawBytes fields max_bytes hsize, hG]⟩
        | arr l =>
          exact ⟨_, by rw [parse_command_obj rawBytes fields max_bytes hsize, hG]⟩
        | obj l =>
          exact ⟨_, by rw [parse_command_obj rawBytes fields max_bytes hsize, hG]⟩
  · intro fields op hdec hG hopid hall
    by_cases hsize : rawBytes > max_bytes
    · exact hbig hsize
    · rw [hdec, parse_command_obj_op rawBytes fields max_bytes op hsize hG]
      have hallP : ¬ ((fields.all fun p =>
          p.1 = "op" ∨ p.1 = "conversation_ids") = true) := by
        rw [hall]
        exact Bool.false_ne_true
      rcases hopid with rfl | rfl
      · rw [if_pos rfl]
        unfold validateIdsCommand
        rw [if_pos hallP]
        exact ⟨_, rfl⟩
      · rw [if_neg (by decide : ¬("unsubscribe" = "subscribe")), if_pos rfl]
        unfold validateIdsCommand
        rw [if_pos hallP]
        exact ⟨_, rfl⟩
  · intro fields op hdec hG hopid hcids
    by_cases hsize : rawBytes > max_bytes
    · exact hbig hsize
    · rw [hdec, parse_command_obj_op rawBytes fields max_bytes op hsize hG]
      by_cases hall : (fields.all fun p =>
          p.1 = "op" ∨ p.1 = "conversation_ids") = true
      · rcases hopid with rfl | rfl
        · rw [if_pos rfl]
          unfold validateIdsCommand
          rw [if_neg (not_not_intro hall), hG]
          rw [if_pos (show isOpLiteral (some (Json.str "subscribe")) "subscribe" =
            true from rfl), hcids]
          exact ⟨_, rfl⟩
        · rw [if_neg (by decide : ¬("unsubscribe" = "subscribe")), if_pos rfl]
          unfold validateIdsCommand
          rw [if_neg (not_not_intro hall), hG]
          rw [if_pos (show isOpLiteral (some (Json.str "unsubscribe")) "unsubscribe" =
            true from rfl), hcids]
          exact ⟨_, rfl⟩
      · have hall2 : (fields.all fun p =>
            p.1 = "op" ∨ p.1 = "conversation_ids") = false :=
          Bool.eq_false_iff.mpr hall
        have hallP : ¬ ((fields.all fun p =>
            p.1 = "op" ∨ p.1 = "conversation_ids") = true) := by
          rw [hall2]
          exact Bool.false_ne_true
        rcases hopid with rfl | rfl
        · rw [if_pos rfl]
          unfold validateIdsCommand
          rw [if_pos hallP]
          exact ⟨_, rfl⟩
        · rw [if_neg (by decide : ¬("unsubscribe" = "subscribe")), if_pos rfl]
          unfold validateIdsCommand
          rw [if_pos hallP]
          exact ⟨_, rfl⟩
  · intro fields hdec hG hall
    by_cases hsize : rawBytes > max_bytes
    · exact hbig hsize
    · rw [hdec, parse_command_obj_op rawBytes fields max_bytes "ping" hsize hG]
      rw [if_neg (by decide : ¬("ping" = "subscribe")),
        if_neg (by decide : ¬("ping" = "unsubscribe")), if_pos rfl]
      unfold validatePing
      have hallP : ¬ ((fields.all fun p => p.1 = "op" ∨ p.1 = "ts") = true) := by
        rw [hall]
        exact Bool.false_ne_true
      rw [if_pos hallP]
      exact ⟨_, rfl⟩

/-- Witness for `C7_parse_command_rejections`: an oversized frame, a
non-JSON frame, a non-object payload, an unknown op, a subscribe with an
extra field, a subscribe missing `conversation_ids`, and a ping with an
extra field are all rejected. -/
theorem C7_parse_command_rejections_witness :
    (∃ e, parse_command 1000 (some .null) 10 = .error e) ∧
    (∃ e, parse_command 5 none 100 = .error e) ∧
    (∃ e, parse_command 5 (some (.num 3)) 100 = .error e) ∧
    (∃ e, parse_command 5 (some (.obj [("op", .str "nope")])) 100 = .error e) ∧
    (∃ e, parse_command 5
      (some (.obj [("op", .str "subscribe"), ("junk", .null)])) 100 = .error e) ∧
    (∃ e, parse_command 5 (some (.obj [("op", .str "subscribe")])) 100 = .error e) ∧
    (∃ e, parse_command 5
      (some (.obj [("op", .str "ping"), ("junk", .null)])) 100 = .error e) := by
  refine ⟨(C7_parse_command_rejections 1000 (some .null) 10).1 (by decide),
    (C7_parse_command_rejections 5 none 100).2.1 rfl,
    (C7_parse_command_rejections 5 (some (.num 3)) 100).2.2.1 (.num 3) rfl
      (fun fields h => Json.noConfusion h),
    (C7_parse_command_rejections 5 (some (.obj [("op", .str "nope")])) 100).2.2.2.1
      [("op", .str "nope")] rfl ?_,
    (C7_parse_command_rejections 5
        (some (.obj [("op", .str "subscribe"), ("junk", .null)])) 100).2.2.2.2.1
      [("op", .str "subscribe"), ("junk", .null)] "subscribe" rfl rfl
      (Or.inl rfl) (by decide),
    (C7_parse_command_rejections 5
        (some (.obj [("op", .str "subscribe")])) 100).2.2.2.2.2.1
      [("op", .str "subscribe")] "subscribe" rfl rfl (Or.inl rfl) rfl,
    (C7_parse_command_rejections 5
        (some (.obj [("op", .str "ping"), ("junk", .null)])) 100).2.2.2.2.2.2
      [("op", .str "ping"), ("junk", .null)] rfl rfl (by decide)⟩
  intro op h
  have h2 : Json.str "nope" = Json.str op := Option.some.inj h
  cases h2
  exact ⟨by decide, by decide, by decide⟩

/-! ## Sync view theorems (C8) -/

lemma mem_list_messages {s : Store} {cid : String} {after limit : Nat} {m : Message}
    (h : m ∈ list_messages s cid after limit) :
    m ∈ s.messages ∧ m.conversation_id = cid ∧ after < m.seq := by
  unfold list_messages at h
  have h1 := List.take_subset limit _ h
  have h2 := (List.perm_insertionSort Message.seqLe _).mem_iff.mp h1
  have h3 := List.mem_filter.mp h2
  refine ⟨h3.1, ?_⟩
  have h4 := h3.2
  simp only [decide_eq_true_eq] at h4
  exact h4

lemma list_messages_sorted (s : Store) (cid : String) (after limit : Nat) :
    (list_messages s cid after limit).Sorted Message.seqLe :=
  List.Pairwise.sublist (List.take_sublist _ _)
    (List.sorted_insertionSort Message.seqLe _)

lemma list_messages_length_le (s : Store) (cid : String) (after limit : Nat) :
    (list_messages s cid after limit).length ≤ limit :=
  List.length_take_le _ _

lemma list_messages_complete (s : Store) (cid : String) (after limit : Nat)
    (hlen : (s.messages.filter fun m =>
      m.conversation_id = cid ∧ after < m.seq).length ≤ limit) :
    ∀ m : Message, m ∈ list_messages s cid after limit ↔
      m ∈ s.messages ∧ m.conversation_id = cid ∧ after < m.seq := by
  intro m
  unfold list_messages
  have hlen2 : ((s.messages.filter fun m =>
      m.conversation_id = cid ∧ after < m.seq).insertionSort
        Message.seqLe).length ≤ limit := by
    rw [(List.perm_insertionSort Message.seqLe _).length_eq]
    exact hlen
  rw [List.take_of_length_le hlen2,
    (List.perm_insertionSort Message.seqLe _).mem_iff, List.mem_filter]
  simp only [decide_eq_true_eq]

lemma filter_conv_self (s : Store) (afterMap : List (String × Nat)) (convId : String) :
    (list_messages s convId (afterFloor afterMap convId) 100).filter
        (fun m => m.conversation_id = convId) =
      list_messages s convId (afterFloor afterMap convId) 100 :=
  List.filter_eq_self.mpr fun m hm => by
    simp only [decide_eq_true_eq]
    exact (mem_list_messages hm).2.1

lemma filter_conv_nil (s : Store) (afterMap : List (String × Nat))
    (c : Conversation) (convId : String) (hne : c.id ≠ convId) :
    (list_messages s c.id (afterFloor afterMap c.id) 100).filter
      (fun m => m.conversation_id = convId) = [] := by
  rw [List.filter_eq_nil_iff]
  intro m hm
  have hcid := (mem_list_messages hm).2.1
  simp only [decide_eq_true_eq]
  rw [hcid]
  exact hne

lemma filter_flatMap_single (s : Store) (afterMap : List (String × Nat))
    (conv : Conversation) :
    ∀ convs : List Conversation, (convs.map Conversation.id).Nodup → conv ∈ convs →
      (convs.flatMap fun c =>
          list_messages s c.id (afterFloor afterMap c.id) 100).filter
          (fun m => m.conversation_id = conv.id) =
        list_messages s conv.id (afterFloor afterMap conv.id) 100 := by
  intro convs
  induction convs with
  | nil => intro _ hmem; exact absurd hmem (List.not_mem_nil conv)
  | cons c rest ih =>
    intro hnd hmem
    rw [List.map_cons] at hnd
    have hnd2 := List.nodup_cons.mp hnd
    rw [List.flatMap_cons, List.filter_append]
    rcases List.mem_cons.mp hmem with rfl | hmem2
    · rw [filter_conv_self]
      have hrest : (rest.flatMap fun c' =>
          list_messages s c'.id (afterFloor afterMap c'.id) 100).filter
          (fun m => m.conversation_id = conv.id) = [] := by
        rw [List.filter_eq_nil_iff]
        intro m hm
        obtain ⟨c', hc', hmc⟩ := List.mem_flatMap.mp hm
        have hcid := (mem_list_messages hmc).2.1
        have hne : c'.id ≠ conv.id := by
          intro he
          exact hnd2.1 (he ▸ List.mem_map_of_mem Conversation.id hc')
        simp only [decide_eq_true_eq]
        rw [hcid]
        exact hne
      rw [hrest, List.append_nil]
    · have hne : c.id ≠ conv.id := by
        intro he
        refine hnd2.1 ?_
        rw [he]
        exact List.mem_map_of_mem Conversation.id hmem2
      rw [filter_conv_nil s afterMap c conv.id hne, List.nil_append]
      exact ih hnd2.2 hmem2

lemma mem_list_user_conversations {s : Store} {u : String} {c : Conversation} :
    c ∈ list_user_conversations s u ↔
      c ∈ s.conversations ∧ (c.id, u) ∈ s.members := by
  unfold list_user_conversations
  rw [(List.perm_insertionSort Conversation.recentGe _).mem_iff, List.mem_filter]
  simp

lemma list_user_conversations_nodup (s : Store) (u : String)
    (hconv : (s.conversations.map Conversation.id).Nodup) :
    ((list_user_conversations s u).map Conversation.id).Nodup := by
  unfold list_user_conversations
  refine ((List.perm_insertionSort Conversation.recentGe _).map
    Conversation.id).nodup_iff.mpr ?_
  exact List.Nodup.sublist ((List.filter_sublist _).map Conversation.id) hconv

/-- C8 — the messages returned by `sync_changes`: every returned message
belongs to a conversation the requester is a member of and exceeds that
conversation's floor (a conversation absent from the mapping uses floor
0, via `afterFloor`); and for each membership conversation the returned
messages for it are exactly `list_messages` with limit 100 —
ascending by `seq`, at most 100, and (whenever at most 100 qualify)
precisely the persisted messages with `seq` above the floor. -/
theorem C8_sync_changes_per_conversation (s : Store) (requester : String)
    (afterMap : List (String × Nat))
    (hconvNodup : (s.conversations.map Conversation.id).Nodup) :
    (∀ m ∈ sync_changes s requester afterMap,
      (m.conversation_id, requester) ∈ s.members ∧
      afterFloor afterMap m.conversation_id < m.seq) ∧
    (∀ conv, conv ∈ s.conversations → (conv.id, requester) ∈ s.members →
      (sync_changes s requester afterMap).filter
          (fun m => m.conversation_id = conv.id) =
        list_messages s conv.id (afterFloor afterMap conv.id) 100 ∧
      (list_messages s conv.id (afterFloor afterMap conv.id) 100).Sorted
        Message.seqLe ∧
      (list_messages s conv.id (afterFloor afterMap conv.id) 100).length ≤ 100 ∧
      ((s.messages.filter fun m =>
          m.conversation_id = conv.id ∧
            afterFloor afterMap conv.id < m.seq).length ≤ 100 →
        ∀ m : Message,
          m ∈ list_messages s conv.id (afterFloor afterMap conv.id) 100 ↔
            m ∈ s.messages ∧ m.conversation_id = conv.id ∧
              afterFloor afterMap conv.id < m.seq)) := by
  constructor
  · intro m hm
    obtain ⟨c, hc, hmc⟩ := List.mem_flatMap.mp hm
    obtain ⟨-, hcm⟩ := mem_list_user_conversations.mp hc
    obtain ⟨-, hcid, hseq⟩ := mem_list_messages hmc
    rw [hcid]
    exact ⟨hcm, hseq⟩
  · intro conv hconv hmem
    refine ⟨?_, list_messages_sorted s conv.id _ 100,
      list_messages_length_le s conv.id _ 100,
      list_messages_complete s conv.id _ 100⟩
    exact filter_flatMap_single s afterMap conv (list_user_conversations s requester)
      (list_user_conversations_nodup s requester hconvNodup)
      (mem_list_user_conversations.mpr ⟨hconv, hmem⟩)

/-- Witness for `C8_sync_changes_per_conversation`: in `demoStore2`
(one conversation `c1` of `u1`/`u2` holding one message) the changes feed
of `u1` with an empty floor map returns for `c1` exactly
`list_messages` after floor 0. -/
theorem C8_sync_changes_per_conversation_witness :
    (sync_changes demoStore2 "u1" []).filter
        (fun m => m.conversation_id = demoConversation.id) =
      list_messages demoStore2 demoConversation.id
        (afterFloor [] demoConversation.id) 100 :=
  ((C8_sync_changes_per_conversation demoStore2 "u1" [] (by decide)).2
    demoConversation (by decide) (by decide)).1

/-! ## Sequence-allocator theorems (C3) -/

lemma find?_map_update_self (l : List (String × Nat)) (cid : String) (n : Nat)
    (h : (l.find? fun p => p.1 = cid).isSome) :
    ((l.map fun p => if p.1 = cid then (p.1, n) else p).find?
      fun p => p.1 = cid).map Prod.snd = some n := by
  induction l with
  | nil => simp at h
  | cons q l ih =>
    by_cases hq : q.1 = cid
    · rw [List.map_cons, if_pos hq, List.find?_cons_of_pos _ (by simpa using hq)]
      simp
    · rw [List.map_cons, if_neg hq, List.find?_cons_of_neg _ (by simpa using hq)]
      refine ih ?_
      rwa [List.find?_cons_of_neg _ (by simpa using hq)] at h

lemma find?_map_update_other (l : List (String × Nat)) (cid : String) (n : Nat)
    (v : String) (hne : v ≠ cid) :
    ((l.map fun p => if p.1 = cid then (p.1, n) else p).find?
      fun p => p.1 = v) = l.find? fun p => p.1 = v := by
  induction l with
  | nil => rfl
  | cons q l ih =>
    by_cases hq : q.1 = cid
    · have hv : ¬ q.1 = v := fun he => hne (he ▸ hq)
      rw [List.map_cons, if_pos hq, List.find?_cons_of_neg _ (by simpa using hv),
        List.find?_cons_of_neg _ (by simpa using hv)]
      exact ih
    · rw [List.map_cons, if_neg hq]
      by_cases hv : q.1 = v
      · rw [List.find?_cons_of_pos _ (by simpa using hv),
          List.find?_cons_of_pos _ (by simpa using hv)]
      · rw [List.find?_cons_of_neg _ (by simpa using hv),
          List.find?_cons_of_neg _ (by simpa using hv)]
        exact ih

lemma find_setCounter_self (s : Store) (cid : String) (n : Nat) :
    ((setCounter s cid n).find? fun p => p.1 = cid).map Prod.snd = some n := by
  unfold setCounter
  by_cases h : (s.counters.find? fun p => p.1 = cid).isSome
  · rw [if_pos h]
    exact find?_map_update_self s.counters cid n h
  · rw [if_neg h]
    rw [Option.not_isSome_iff_eq_none] at h
    rw [List.find?_append, h]
    simp

lemma find_setCounter_other (s : Store) (cid : String) (n : Nat) (v : String)
    (hne : v ≠ cid) :
    ((setCounter s cid n).find? fun p => p.1 = v).map Prod.snd = getCounter s v := by
  unfold setCounter getCounter
  by_cases h : (s.counters.find? fun p => p.1 = cid).isSome
  · rw [if_pos h, find?_map_update_other s.counters cid n v hne]
  · rw [if_neg h, List.find?_append]
    have hsingle : ([(cid, n)].find? fun p => p.1 = v) = none := by
      simp [Ne.symm hne]
    rw [hsingle]
    cases s.counters.find? fun p => p.1 = v <;> rfl

lemma setCounter_keys (s : Store) (cid : String) (n : Nat) :
    ∀ p' ∈ setCounter s cid n, p'.1 = cid ∨ ∃ p ∈ s.counters, p'.1 = p.1 := by
  intro p' hp'
  unfold setCounter at hp'
  by_cases h : (s.counters.find? fun p => p.1 = cid).isSome
  · rw [if_pos h] at hp'
    obtain ⟨p, hp, hmap⟩ := List.mem_map.mp hp'
    by_cases hq : p.1 = cid
    · refine Or.inl ?_
      rw [← hmap, if_pos hq]
      exact hq
    · refine Or.inr ⟨p, hp, ?_⟩
      rw [← hmap, if_neg hq]
  · rw [if_neg h] at hp'
    rcases List.mem_append.mp hp' with hp | hp
    · exact Or.inr ⟨p', hp, rfl⟩
    · rw [List.mem_singleton.mp hp]
      exact Or.inl rfl

lemma touchConversation_map_id (convs : List Conversation) (cid content : String)
    (now : Nat) :
    (touchConversation convs cid content now).map Conversation.id =
      convs.map Conversation.id := by
  unfold touchConversation
  rw [List.map_map]
  refine List.map_congr_left fun c _ => ?_
  by_cases hc : c.id = cid
  · simp [hc]
  · simp [hc]

lemma convSeqs_append_one (s : Store) (msg : Message) (counters' : List (String × Nat))
    (convs' : List Conversation) (v : String) :
    convSeqs { s with
        counters := counters'
        messages := s.messages ++ [msg]
        conversations := convs' } v =
      convSeqs s v ++ (if msg.conversation_id = v then [msg.seq] else []) := by
  unfold convSeqs
  rw [List.filter_append, List.map_append]
  congr 1
  by_cases hm : msg.conversation_id = v
  · simp [hm]
  · simp [hm]

lemma mem_touch_of_mem (convs : List Conversation) (cid content : String)
    (now : Nat) {c : Conversation} (hc : c ∈ convs) :
    ∃ c' ∈ touchConversation convs cid content now, c'.id = c.id := by
  unfold touchConversation
  refine ⟨_, List.mem_map_of_mem _ hc, ?_⟩
  by_cases h : c.id = cid <;> simp [h]

/-- The committed create path of `send_message` preserves the sequence
invariant: the new message takes `seq = next_seq = N + 1` and the counter
moves to `N + 2`. -/
lemma SeqWF_created (s : Store) (cid content : String) (now : Nat) (msg : Message)
    (hconvmem : ∃ c ∈ s.conversations, c.id = cid)
    (hmsgconv : msg.conversation_id = cid)
    (hmsgseq : msg.seq = (convSeqs s cid).length + 1)
    (hwf : SeqWF s) :
    SeqWF { s with
        counters := setCounter s cid (msg.seq + 1)
        messages := s.messages ++ [msg]
        conversations := touchConversation s.conversations cid content now } := by
  obtain ⟨wf1, wf2, wf3, wf4⟩ := hwf
  refine ⟨?_, ?_, ?_, ?_⟩
  · intro v
    rw [convSeqs_append_one]
    by_cases hv : msg.conversation_id = v
    · rw [if_pos hv]
      have hvcid : v = cid := hv ▸ hmsgconv
      subst hvcid
      have hlen : (convSeqs s v ++ [msg.seq]).length =
          (convSeqs s v).length + 1 := by simp
      rw [hlen, List.range'_concat]
      refine List.Perm.append (wf1 v) ?_
      rw [hmsgseq, one_mul, Nat.add_comm]
    · rw [if_neg hv, List.append_nil]
      exact wf1 v
  · intro v
    show (match ((setCounter s cid (msg.seq + 1)).find?
        fun p => p.1 = v).map Prod.snd with
      | some n => n = (convSeqs { s with
          counters := setCounter s cid (msg.seq + 1)
          messages := s.messages ++ [msg]
          conversations := touchConversation s.conversations cid content now } v).length + 1
      | none => convSeqs { s with
          counters := setCounter s cid (msg.seq + 1)
          messages := s.messages ++ [msg]
          conversations := touchConversation s.conversations cid content now } v = [])
    rw [convSeqs_append_one]
    by_cases hv : v = cid
    · subst hv
      rw [find_setCounter_self, if_pos hmsgconv]
      show msg.seq + 1 = (convSeqs s v ++ [msg.seq]).length + 1
      rw [List.length_append, hmsgseq]
      simp
    · rw [find_setCounter_other s cid (msg.seq + 1) v hv]
      have hne2 : ¬ msg.conversation_id = v := by
        rw [hmsgconv]
        exact fun h => hv h.symm
      rw [if_neg hne2, List.append_nil]
      exact wf2 v
  · intro m hm
    rcases List.mem_append.mp hm with hm | hm
    · obtain ⟨c, hc, hcid⟩ := wf3 m hm
      obtain ⟨c', hc', hcid'⟩ := mem_touch_of_mem s.conversations cid content now hc
      exact ⟨c', hc', by rw [hcid', hcid]⟩
    · rw [List.mem_singleton.mp hm]
      obtain ⟨c, hc, hcid⟩ := hconvmem
      obtain ⟨c', hc', hcid'⟩ := mem_touch_of_mem s.conversations cid content now hc
      exact ⟨c', hc', by rw [hcid', hcid, hmsgconv]⟩
  · intro p hp
    rcases setCounter_keys s cid (msg.seq + 1) p hp with hk | ⟨p0, hp0, hk⟩
    · obtain ⟨c, hc, hcid⟩ := hconvmem
      obtain ⟨c', hc', hcid'⟩ := mem_touch_of_mem s.conversations cid content now hc
      exact ⟨c', hc', by rw [hcid', hcid, hk]⟩
    · obtain ⟨c, hc, hcid⟩ := wf4 p0 hp0
      obtain ⟨c', hc', hcid'⟩ := mem_touch_of_mem s.conversations cid content now hc
      exact ⟨c', hc', by rw [hcid', hcid, hk]⟩

lemma SeqWF_send (s : Store) (cid sid cmid content : String) (now : Nat)
    (newId : String) (hwf : SeqWF s) :
    SeqWF (applyOp s (.send cid sid cmid content now newId)) := by
  simp only [applyOp]
  cases hf : findByClientKey s.messages sid cmid with
  | some m0 =>
    by_cases hc : m0.conversation_id = cid
    · rw [send_message_replay s cid sid cmid content now newId m0 hf hc]
      exact hwf
    · rw [send_message_conflict s cid sid cmid content now newId m0 hf hc]
      exact hwf
  | none =>
    cases hg : getConversation s cid with
    | none =>
      unfold send_message
      rw [hf, hg]
      exact hwf
    | some conv =>
      by_cases hcol : s.messages.any fun m =>
        m.conversation_id = cid ∧ m.seq = (getCounter s cid).getD 1
      · unfold send_message
        rw [hf, hg]
        simp only [hcol, if_true]
        exact hwf
      · rw [send_message_creates s cid sid cmid content now newId hf conv hg hcol]
        show SeqWF { s with
          counters := setCounter s cid ((getCounter s cid).getD 1 + 1)
          messages := s.messages ++
            [{ id := newId
               conversation_id := cid
               sender_id := sid
               client_message_id := cmid
               seq := (getCounter s cid).getD 1
               content := content
               created_at := now }]
          conversations := touchConversation s.conversations cid content now }
        have hconvmem : ∃ c ∈ s.conversations, c.id = cid := by
          have hmem := List.mem_of_find?_eq_some hg
          have hpred := List.find?_some hg
          simp only [decide_eq_true_eq] at hpred
          exact ⟨conv, hmem, hpred⟩
        have hseqN : (getCounter s cid).getD 1 = (convSeqs s cid).length + 1 := by
          have h2 := hwf.2.1 cid
          cases hgc : getCounter s cid with
          | some n =>
            rw [hgc] at h2
            simpa using h2
          | none =>
            rw [hgc] at h2
            simp [h2]
        exact SeqWF_created s cid content now _ hconvmem rfl hseqN hwf

lemma convSeqs_eq_of_messages {s' s : Store} (h : s'.messages = s.messages)
    (v : String) : convSeqs s' v = convSeqs s v := by
  unfold convSeqs
  rw [h]

/-- A store transformation that keeps the messages, keeps (up to renaming)
the conversation ids, and either keeps a conversation's counter or
initialises a fresh one at `next_seq = 1` for a message-less conversation
preserves the sequence invariant. -/
lemma SeqWF_of_parts (s' s : Store) (hmsg : s'.messages = s.messages)
    (hconvids : ∀ x, (∃ c ∈ s.conversations, c.id = x) →
      ∃ c ∈ s'.conversations, c.id = x)
    (hcnt : ∀ v, getCounter s' v = getCounter s v ∨
      (getCounter s' v = some 1 ∧ convSeqs s v = []))
    (hkeys : ∀ p ∈ s'.counters, ∃ c ∈ s'.conversations, c.id = p.1)
    (hwf : SeqWF s) : SeqWF s' := by
  obtain ⟨wf1, wf2, wf3, wf4⟩ := hwf
  refine ⟨?_, ?_, ?_, hkeys⟩
  · intro v
    rw [convSeqs_eq_of_messages hmsg]
    exact wf1 v
  · intro v
    rcases hcnt v with heq | ⟨h1, hempty⟩
    · rw [heq, convSeqs_eq_of_messages hmsg]
      exact wf2 v
    · rw [h1, convSeqs_eq_of_messages hmsg]
      show 1 = (convSeqs s v).length + 1
      simp [hempty]
  · intro m hm
    rw [hmsg] at hm
    obtain ⟨c, hc, hcid⟩ := wf3 m hm
    exact hconvids m.conversation_id ⟨c, hc, hcid⟩

lemma SeqWF_createDirect (s : Store) (u1 u2 : String) (now : Nat) (newCid : String)
    (hwf : SeqWF s) : SeqWF (applyOp s (.createDirect u1 u2 now newCid)) := by
  have hwf0 := hwf
  obtain ⟨wf1, wf2, wf3, wf4⟩ := hwf0
  simp only [applyOp]
  unfold get_or_create_direct_conversation
  by_cases h1 : u1 = u2
  · rw [if_pos h1]
    exact hwf
  · rw [if_neg h1]
    by_cases h2 : u2 ∉ s.users
    · rw [if_pos h2]
      exact hwf
    · rw [if_neg h2]
      cases hex : findDirectConversation s u1 u2 with
      | some existing => exact hwf
      | none =>
        by_cases hfresh : s.conversations.any fun c => c.id = newCid
        · rw [if_pos hfresh]
          exact hwf
        · rw [if_neg hfresh]
          have hnoconv : ¬ ∃ c ∈ s.conversations, c.id = newCid := by
            rintro ⟨c, hc, hcid⟩
            exact hfresh (List.any_eq_true.mpr ⟨c, hc, by simp [hcid]⟩)
          have hnone : (s.counters.find? fun p => p.1 = newCid) = none := by
            cases hfind : s.counters.find? fun p => p.1 = newCid with
            | none => rfl
            | some p =>
              obtain ⟨c, hc, hcid⟩ := wf4 p (List.mem_of_find?_eq_some hfind)
              have hp := List.find?_some hfind
              simp only [decide_eq_true_eq] at hp
              exact absurd ⟨c, hc, by rw [hcid, hp]⟩ hnoconv
          have hnomsg : convSeqs s newCid = [] := by
            unfold convSeqs
            rw [List.filter_eq_nil_iff.mpr, List.map_nil]
            intro m hm
            obtain ⟨c, hc, hcid⟩ := wf3 m hm
            simp only [decide_eq_true_eq]
            intro he
            exact hnoconv ⟨c, hc, by rw [hcid, he]⟩
          show SeqWF { s with
            conversations := s.conversations ++ [newDirectConversation newCid now]
            members := s.members ++ [(newCid, u1), (newCid, u2)]
            counters := s.counters ++ [(newCid, 1)] }
          refine SeqWF_of_parts _ s rfl ?_ ?_ ?_ hwf
          · rintro x ⟨c, hc, hcid⟩
            exact ⟨c, List.mem_append_left _ hc, hcid⟩
          · intro v
            by_cases hv : v = newCid
            · subst hv
              refine Or.inr ⟨?_, hnomsg⟩
              show ((s.counters ++ [(v, 1)]).find?
                fun p : String × Nat => p.1 = v).map Prod.snd = some 1
              rw [List.find?_append, hnone]
              simp
            · refine Or.inl ?_
              show ((s.counters ++ [(newCid, 1)]).find?
                fun p : String × Nat => p.1 = v).map Prod.snd = getCounter s v
              have hsingle : (([(newCid, 1)] : List (String × Nat)).find?
                  fun p => p.1 = v) = none := by
                simp [Ne.symm hv]
              rw [List.find?_append, hsingle]
              unfold getCounter
              cases s.counters.find? fun p => p.1 = v <;> rfl
          · intro p hp
            have hp' : p ∈ s.counters ++ [(newCid, 1)] := hp
            rcases List.mem_append.mp hp' with hold | hnew
            · obtain ⟨c, hc, hcid⟩ := wf4 p hold
              exact ⟨c, List.mem_append_left _ hc, hcid⟩
            · refine ⟨newDirectConversation newCid now, ?_, ?_⟩
              · exact List.mem_append_right _ (List.mem_singleton.mpr rfl)
              · rw [List.mem_singleton.mp hnew]
                rfl

/-- Every write-path operation preserves the sequence invariant. -/
lemma SeqWF_applyOp (s : Store) (op : StoreOp) (hwf : SeqWF s) :
    SeqWF (applyOp s op) := by
  cases op with
  | send cid sid cmid content now newId =>
    exact SeqWF_send s cid sid cmid content now newId hwf
  | createDirect u1 u2 now newCid =>
    exact SeqWF_createDirect s u1 u2 now newCid hwf

lemma SeqWF_applyOps (ops : List StoreOp) :
    ∀ s : Store, SeqWF s → SeqWF (applyOps s ops) := by
  induction ops with
  | nil => intro s h; exact h
  | cons op rest ih =>
    intro s h
    exact ih (applyOp s op) (SeqWF_applyOp s op h)

/-- C3 — starting from any store satisfying the sequence invariant (a
fresh deployment, or any state the write path can produce), any sequence
of `send_message` and `get_or_create_direct_conversation` calls leaves
it intact: per conversation the persisted `seq` values are exactly the
multiset `{1, 2, …, N}` — no gaps, no duplicates — counters are created
at `next_seq = 1`, a created message takes `seq = next_seq` while
`next_seq` moves up by one in the same transaction, and `next_seq`
always strictly exceeds every persisted `seq` of its conversation. -/
theorem C3_seq_gap_free (s : Store) (ops : List StoreOp) (hwf : SeqWF s) :
    SeqWF (applyOps s ops) ∧
    (∀ v : String, (convSeqs (applyOps s ops) v).Perm
      (List.range' 1 (convSeqs (applyOps s ops) v).length)) ∧
    (∀ v n, getCounter (applyOps s ops) v = some n →
      ∀ q ∈ convSeqs (applyOps s ops) v, q < n) := by
  have hwf' : SeqWF (applyOps s ops) := SeqWF_applyOps ops s hwf
  refine ⟨hwf', hwf'.1, ?_⟩
  intro v n hc q hq
  have h2 := hwf'.2.1 v
  rw [hc] at h2
  have hperm := hwf'.1 v
  have hq2 := hperm.mem_iff.mp hq
  rw [List.mem_range'_1] at hq2
  rw [h2]
  omega

/-- `demoStore` (fresh conversation, counter at 1, no messages) satisfies
the sequence invariant. -/
lemma SeqWF_demoStore : SeqWF demoStore := by
  refine ⟨?_, ?_, ?_, ?_⟩
  · intro v
    show (convSeqs demoStore v).Perm (List.range' 1 (convSeqs demoStore v).length)
    have h : convSeqs demoStore v = [] := rfl
    rw [h]
    exact List.Perm.refl _
  · intro v
    by_cases hv : v = "c1"
    · subst hv
      have h : getCounter demoStore "c1" = some 1 := rfl
      rw [h]
      rfl
    · have h : getCounter demoStore v = none := by
        unfold getCounter demoStore
        rw [List.find?_cons_of_neg _ (by simpa using fun h => hv h.symm)]
        rfl
      rw [h]
      rfl
  · intro m hm
    exact absurd hm (List.not_mem_nil m)
  · intro p hp
    have hp' : p ∈ ([("c1", 1)] : List (String × Nat)) := hp
    rw [List.mem_singleton.mp hp']
    exact ⟨demoConversation, List.mem_singleton.mpr rfl, rfl⟩

/-- Witness for `C3_seq_gap_free`: two sends into `demoStore`'s fresh
conversation allocate seqs 1 and 2 with the counter at 3, and the
invariant conclusions hold at this concrete state. -/
theorem C3_seq_gap_free_witness :
    convSeqs (applyOps demoStore
      [.send "c1" "u1" "k1" "hello" 10 "m1",
       .send "c1" "u2" "k2" "world" 11 "m2"]) "c1" = [1, 2] ∧
    getCounter (applyOps demoStore
      [.send "c1" "u1" "k1" "hello" 10 "m1",
       .send "c1" "u2" "k2" "world" 11 "m2"]) "c1" = some 3 ∧
    (∀ q ∈ convSeqs (applyOps demoStore
      [.send "c1" "u1" "k1" "hello" 10 "m1",
       .send "c1" "u2" "k2" "world" 11 "m2"]) "c1", q < 3) := by
  refine ⟨by decide, by decide, ?_⟩
  exact (C3_seq_gap_free demoStore
    [.send "c1" "u1" "k1" "hello" 10 "m1",
     .send "c1" "u2" "k2" "world" 11 "m2"] SeqWF_demoStore).2.2 "c1" 3 (by decide)

/-! ## Concrete sanity checks of the embeddings -/

example : parse_command 5 (some (.obj [("op", .str "ping")])) 100 = .ok (.ping none) :=
  rfl

example : parse_command 5
    (some (.obj [("op", .str "subscribe"), ("conversation_ids", .arr [.str "c1"])]))
    100 = .ok (.subscribe ["c1"]) := rfl

example : parse_command 5 (some (.obj [("op", .str "ping"), ("ts", .num (-7))]))
    100 = .ok (.ping (some (-7))) := rfl

example : sync_changes demoStore2 "u1" [] = [demoMessage] := rfl

example : sync_changes demoStore2 "u1" [("c1", 1)] = [] := rfl

example : list_messages demoStore2 "c1" 0 100 = [demoMessage] := rfl

example : pyDedup ["a", "b", "a", "c", "b"] = ["a", "b", "c"] := rfl

example :
    (processEvent demoPub 10 demoEvent1).next_attempt_at = 10 + 500 ∧
    (processEvent demoPub 10 demoEvent1).attempts = 1 ∧
    (processEvent demoPub 10 demoEvent2).published_at = some 10 := by
  refine ⟨by decide, by decide, by decide⟩

example :
    (processEvent demoPub 10 { demoEvent1 with attempts := 9 }).next_attempt_at =
      10 + 30000 := by decide

end Messenger
